import Mathlib

/-! # Hook manager of the addon-operator: values patches, registration and hook runs

A shallow embedding of `pkg/module_manager/hook.go`.  Go values are modelled as
follows.

* `interface{}` values decoded from JSON are trees of type `Json`; the Go `nil`
  interface is `Json.null`.
* A Go map with string keys is an association list (`utils.Values`) or a
  function to `Option` (the indices of the manager).
* A Go slice that the code tests against `nil` is an `Option (List α)`.
* A Go `error` result is an `Except HookError _`; a `panic` is a separate status.
* The functions of package `utils`, the JSON patch library and the kube
  config manager are not part of `hook.go`; they are taken as parameters
  (`Collaborators`), and so are the file system, `path/filepath`,
  `encoding/json` and the `sanitize` library (`System`).
-/

namespace AddonOperator

/-! ## Values -/

/-- The carrier of Go `float64` numbers decoded from JSON.  The code under study
only stores and compares them. -/
abbrev Float64 := Rat

/-- A decoded JSON document, the dynamic content of a Go `interface{}`. -/
inductive Json where
  | null
  | bool (b : Bool)
  | num (n : Float64)
  | str (s : String)
  | arr (xs : List Json)
  | obj (kvs : List (String × Json))

mutual
/-- Decision procedure for equality of JSON trees. -/
def Json.decEq : (a b : Json) → Decidable (a = b)
  | .null, .null => isTrue rfl
  | .bool a, .bool b =>
    if h : a = b then isTrue (by rw [h]) else isFalse (by intro e; cases e; exact h rfl)
  | .num a, .num b =>
    if h : a = b then isTrue (by rw [h]) else isFalse (by intro e; cases e; exact h rfl)
  | .str a, .str b =>
    if h : a = b then isTrue (by rw [h]) else isFalse (by intro e; cases e; exact h rfl)
  | .arr a, .arr b =>
    match Json.decEqList a b with
    | isTrue h => isTrue (by rw [h])
    | isFalse h => isFalse (by intro e; cases e; exact h rfl)
  | .obj a, .obj b =>
    match Json.decEqObj a b with
    | isTrue h => isTrue (by rw [h])
    | isFalse h => isFalse (by intro e; cases e; exact h rfl)
  | .null, .bool _ | .null, .num _ | .null, .str _ | .null, .arr _ | .null, .obj _
  | .bool _, .null | .bool _, .num _ | .bool _, .str _ | .bool _, .arr _ | .bool _, .obj _
  | .num _, .null | .num _, .bool _ | .num _, .str _ | .num _, .arr _ | .num _, .obj _
  | .str _, .null | .str _, .bool _ | .str _, .num _ | .str _, .arr _ | .str _, .obj _
  | .arr _, .null | .arr _, .bool _ | .arr _, .num _ | .arr _, .str _ | .arr _, .obj _
  | .obj _, .null | .obj _, .bool _ | .obj _, .num _ | .obj _, .str _ | .obj _, .arr _ =>
    isFalse (by intro e; cases e)
/-- Decision procedure for equality of JSON arrays. -/
def Json.decEqList : (a b : List Json) → Decidable (a = b)
  | [], [] => isTrue rfl
  | [], _ :: _ | _ :: _, [] => isFalse (by intro e; cases e)
  | x :: xs, y :: ys =>
    match Json.decEq x y, Json.decEqList xs ys with
    | isTrue h1, isTrue h2 => isTrue (by rw [h1, h2])
    | isFalse h, _ => isFalse (by intro e; cases e; exact h rfl)
    | _, isFalse h => isFalse (by intro e; cases e; exact h rfl)
/-- Decision procedure for equality of JSON objects. -/
def Json.decEqObj : (a b : List (String × Json)) → Decidable (a = b)
  | [], [] => isTrue rfl
  | [], _ :: _ | _ :: _, [] => isFalse (by intro e; cases e)
  | (k, x) :: xs, (l, y) :: ys =>
    if hk : k = l then
      match Json.decEq x y, Json.decEqObj xs ys with
      | isTrue h1, isTrue h2 => isTrue (by rw [hk, h1, h2])
      | isFalse h, _ => isFalse (by intro e; cases e; exact h rfl)
      | _, isFalse h => isFalse (by intro e; cases e; exact h rfl)
    else isFalse (by intro e; cases e; exact hk rfl)
end

instance : DecidableEq Json := Json.decEq

/-- Go `utils.Values`, a `map[string]interface{}`. -/
abbrev Values := List (String × Json)

/-- One operation of a values patch (`utils.ValuesPatchOperation`): the
`(op, path, value)` triple of the patch file. -/
structure ValuesPatchOperation where
  Op : String
  Path : String
  Value : Json
  deriving DecidableEq

/-- Go `utils.ValuesPatch`. -/
structure ValuesPatch where
  Operations : List ValuesPatchOperation
  deriving DecidableEq

/-! ## Bindings -/

/-- The binding kinds (`BindingType` constants). -/
inductive BindingType where
  | BeforeHelm
  | AfterHelm
  | AfterDeleteHelm
  | BeforeAll
  | AfterAll
  | Schedule
  | OnStartup
  | KubeEvents
  deriving DecidableEq, Repr

/-! ## Errors -/

/-- The errors built by `fmt.Errorf` in `hook.go`, one constructor per format
string, and the errors handed over by collaborators. -/
inductive HookError where
  /-- Error value returned by a collaborator. -/
  | external (msg : String)
  /-- Unsupported patch operation. -/
  | unsupportedOperation (op : ValuesPatchOperation)
  /-- Unacceptable patch operation path. -/
  | unacceptablePath (affectedKey acceptableKey : String) (op : ValuesPatchOperation)
  /-- Merge global values failed. -/
  | mergeGlobalValuesFailed (cause : HookError)
  /-- Merge module values failed. -/
  | mergeModuleValuesFailed (moduleName : String) (cause : HookError)
  /-- Expected map at key. -/
  | expectedMap (key : String) (got : Json)
  /-- Global hook failed. -/
  | globalHookFailed (hook : String) (cause : HookError)
  /-- Kube config global values update error. -/
  | kubeConfigGlobalValuesUpdate (hook : String) (cause : HookError)
  /-- Set kube config failed. -/
  | setKubeConfigFailed (hook : String) (cause : HookError)
  /-- Dynamic global values update error. -/
  | dynamicGlobalValuesUpdate (hook : String) (cause : HookError)
  /-- Unsuported value for binding. -/
  | unsupportedValue (value : Json) (binding : BindingType)
  /-- Cannot get config for hook. -/
  | cannotGetHookConfig (hookPath : String) (cause : HookError)
  /-- Unmarshaling module hook json failed. -/
  | unmarshalModuleHookFailed (moduleSafeName hookName : String) (cause : HookError)
  /-- Adding module hook failed. -/
  | addModuleHookFailed (moduleSafeName hookName : String) (cause : HookError)
  deriving DecidableEq

/-! ## validateHookValuesPatch -/

/-- Go `strings.Split` for a one-character separator, on the characters of the
string: the pieces between the occurrences of `sep`. -/
def splitChars (sep : Char) : List Char → List (List Char)
  | [] => [[]]
  | c :: cs =>
    if c = sep then [] :: splitChars sep cs
    else
      match splitChars sep cs with
      | [] => [[c]]
      | part :: parts => (c :: part) :: parts

/-- Go `strings.Split(s, sep)` with a one-character `sep`. -/
def strings.Split (s : String) (sep : Char) : List String :=
  (splitChars sep s.data).map String.mk

/-- The loop of `validateHookValuesPatch` over `valuesPatch.Operations`. -/
def validateOperations (acceptableKey : String) :
    List ValuesPatchOperation → Except HookError Unit
  | [] => .ok ()
  | op :: rest =>
    if op.Op = "replace" then
      .error (.unsupportedOperation op)
    else
      match strings.Split op.Path '/' with
      | _ :: affectedKey :: _ =>
        if affectedKey ≠ acceptableKey then
          .error (.unacceptablePath affectedKey acceptableKey op)
        else validateOperations acceptableKey rest
      | _ => validateOperations acceptableKey rest

/-- Go `validateHookValuesPatch` (hook.go:482). -/
def validateHookValuesPatch (valuesPatch : ValuesPatch) (acceptableKey : String) :
    Except HookError Unit :=
  validateOperations acceptableKey valuesPatch.Operations

/-- The first segment of a slash-separated path, as the specification reads a
path: the text between the first slash and the next slash or the end of the
path.  A path without a slash has no segment. -/
def firstPathSegment (path : String) : Option String :=
  match path.data.dropWhile (fun c => c != '/') with
  | [] => none
  | _ :: rest => some (String.mk (rest.takeWhile (fun c => c != '/')))

/-- A patch has an operation named "replace". -/
def ValuesPatch.hasReplace (p : ValuesPatch) : Prop :=
  ∃ op ∈ p.Operations, op.Op = "replace"

instance (p : ValuesPatch) : Decidable p.hasReplace := by
  unfold ValuesPatch.hasReplace; infer_instance

/-! ## Hook configuration -/

/-- Event types of `kube_events_manager`. -/
inductive OnKubernetesEventType where
  | KubernetesEventOnAdd
  | KubernetesEventOnUpdate
  | KubernetesEventOnDelete
  deriving DecidableEq, Repr

/-- Go `kube_events_manager.KubeNamespaceSelector`. -/
structure KubeNamespaceSelector where
  MatchNames : Option (List String)
  Any : Bool
  deriving DecidableEq

/-- Go `kube_events_manager.OnKubernetesEventConfig`: the two fields that
`hook.go` reads and writes, and the remaining fields as they were decoded. -/
structure OnKubernetesEventConfig where
  EventTypes : Option (List OnKubernetesEventType)
  NamespaceSelector : Option KubeNamespaceSelector
  Rest : Json
  deriving DecidableEq

/-- Go `schedule_manager.ScheduleConfig`; `hook.go` forwards the entries and
never reads them. -/
structure ScheduleConfig where
  Content : Json
  deriving DecidableEq

/-- Go `HookConfig` (hook.go:65). -/
structure HookConfig where
  OnStartup : Json
  Schedule : Option (List ScheduleConfig)
  OnKubernetesEvent : Option (List OnKubernetesEventConfig)
  deriving DecidableEq

/-- Go `GlobalHookConfig` (hook.go:52). -/
structure GlobalHookConfig extends HookConfig where
  BeforeAll : Json
  AfterAll : Json
  deriving DecidableEq

/-- Go `ModuleHookConfig` (hook.go:58). -/
structure ModuleHookConfig extends HookConfig where
  BeforeHelm : Json
  AfterHelm : Json
  AfterDeleteHelm : Json
  deriving DecidableEq

/-- Go `len` of a slice; a nil slice has length 0. -/
def goLen {α : Type} (s : Option (List α)) : Nat :=
  match s with
  | none => 0
  | some l => l.length

/-- Assignment `m[k] = v` on a Go map kept as an association list. -/
def mapSet {κ ν : Type} [DecidableEq κ] (m : List (κ × ν)) (k : κ) (v : ν) : List (κ × ν) :=
  match m with
  | [] => [(k, v)]
  | (k', v') :: rest => if k' = k then (k, v) :: rest else (k', v') :: mapSet rest k v

/-- Lookup `m[k]` with the comma-ok idiom on a Go map kept as an association list. -/
def mapGet {κ ν : Type} [DecidableEq κ] (m : List (κ × ν)) (k : κ) : Option ν :=
  match m with
  | [] => none
  | (k', v') :: rest => if k' = k then some v' else mapGet rest k

/-! ## Hooks and the manager -/

/-- Go `CommonHook` (hook.go:40), without the back pointer to the manager,
which the embedding passes explicitly. -/
structure CommonHook where
  Name : String
  Path : String
  Bindings : List BindingType
  OrderByBinding : List (BindingType × Float64)
  deriving DecidableEq

/-- Go `GlobalHook` (hook.go:23). -/
structure GlobalHook extends CommonHook where
  Config : GlobalHookConfig
  deriving DecidableEq

/-- Go `Module`: the fields used by `hook.go`. -/
structure Module where
  Name : String
  Path : String
  deriving DecidableEq

/-- Go `ModuleHook` (hook.go:28). -/
structure ModuleHook extends CommonHook where
  Module : Module
  Config : ModuleHookConfig
  deriving DecidableEq

/-- Go `NewHook` (hook.go:78). -/
def NewHook (name path : String) : CommonHook :=
  { Name := name, Path := path, Bindings := [], OrderByBinding := [] }

/-- Go `NewGlobalHook` (hook.go:71). -/
def NewGlobalHook (name path : String) (config : GlobalHookConfig) : GlobalHook :=
  { toCommonHook := NewHook name path, Config := config }

/-- Go `NewModuleHook` (hook.go:87); the field `Module` is set by
`registerModuleHook` right after the call, so it is an argument here. -/
def NewModuleHook (name path : String) (config : ModuleHookConfig) (module : Module) :
    ModuleHook :=
  { toCommonHook := NewHook name path, Module := module, Config := config }

/-- The fields of Go `MainModuleManager` that `hook.go` reads and writes. -/
structure MainModuleManager where
  globalHooksOrder : BindingType → List GlobalHook
  globalHooksByName : String → Option GlobalHook
  modulesHooksOrderByName : String → Option (BindingType → List ModuleHook)
  globalCommonStaticValues : Values
  kubeGlobalConfigValues : Values
  globalDynamicValuesPatches : List ValuesPatch

/-! ## Registration

`registerGlobalHook` builds one hook object and appends a pointer to it to the
binding lists while it still mutates the object.  Every list therefore sees the
object as it is when the function returns.  The embedding keeps the object
under construction and the list of binding kinds whose list has received the
pointer (`appended`), and stores the finished object in those lists at the
return. -/

/-- The block `if config.X != nil { ... }` of `registerGlobalHook` and
`registerModuleHook` for an order-bearing binding, on the `CommonHook` part: the
binding is appended to `Bindings`, the type assertion `config.X.(float64)`
stores the number, or the zero value when it fails, in `OrderByBinding`, and
only a successful assertion appends the hook to the binding list. -/
def orderBinding (hook : CommonHook) (appended : List BindingType)
    (binding : BindingType) (value : Json) :
    CommonHook × List BindingType × Except HookError Unit :=
  if value ≠ Json.null then
    let bound := { hook with Bindings := hook.Bindings ++ [binding] }
    match value with
    | .num order =>
      ({ bound with OrderByBinding := mapSet bound.OrderByBinding binding order },
        appended ++ [binding], .ok ())
    | other =>
      ({ bound with OrderByBinding := mapSet bound.OrderByBinding binding 0 },
        appended, .error (.unsupportedValue other binding))
  else (hook, appended, .ok ())

/-- The block `if len(config.X) != 0 { ... }` for `Schedule` and `KubeEvents`. -/
def listBinding (hook : CommonHook) (appended : List BindingType)
    (binding : BindingType) (len : Nat) : CommonHook × List BindingType :=
  if len ≠ 0 then
    ({ hook with Bindings := hook.Bindings ++ [binding] }, appended ++ [binding])
  else (hook, appended)

/-- The hook object of `registerGlobalHook` at its return, the binding kinds to
whose list it was appended, and the returned error (hook.go:94-135 without the
writes to the manager). -/
def buildGlobalHook (name path : String) (config : GlobalHookConfig) :
    GlobalHook × List BindingType × Except HookError Unit :=
  let globalHook := NewGlobalHook name path config
  match orderBinding globalHook.toCommonHook [] .BeforeAll config.BeforeAll with
  | (h1, a1, .error err) => ({ globalHook with toCommonHook := h1 }, a1, .error err)
  | (h1, a1, .ok ()) =>
  match orderBinding h1 a1 .AfterAll config.AfterAll with
  | (h2, a2, .error err) => ({ globalHook with toCommonHook := h2 }, a2, .error err)
  | (h2, a2, .ok ()) =>
  match orderBinding h2 a2 .OnStartup config.OnStartup with
  | (h3, a3, .error err) => ({ globalHook with toCommonHook := h3 }, a3, .error err)
  | (h3, a3, .ok ()) =>
  match listBinding h3 a3 .Schedule (goLen config.Schedule) with
  | (h4, a4) =>
  match listBinding h4 a4 .KubeEvents (goLen config.OnKubernetesEvent) with
  | (h5, a5) => ({ globalHook with toCommonHook := h5 }, a5, .ok ())

/-- Go `registerGlobalHook` (hook.go:94): the manager after the call and the
returned error. -/
def registerGlobalHook (mm : MainModuleManager) (name path : String)
    (config : GlobalHookConfig) : MainModuleManager × Except HookError Unit :=
  match buildGlobalHook name path config with
  | (globalHook, appended, .error err) =>
    ({ mm with
        globalHooksOrder := fun b =>
          if b ∈ appended then mm.globalHooksOrder b ++ [globalHook]
          else mm.globalHooksOrder b },
      .error err)
  | (globalHook, appended, .ok ()) =>
    ({ mm with
        globalHooksOrder := fun b =>
          if b ∈ appended then mm.globalHooksOrder b ++ [globalHook]
          else mm.globalHooksOrder b
        globalHooksByName := fun n =>
          if n = name then some globalHook else mm.globalHooksByName n },
      .ok ())

/-- The hook object of `registerModuleHook` at its return, the binding kinds to
whose list it was appended, and the returned error (hook.go:145-188). -/
def buildModuleHook (name path : String) (config : ModuleHookConfig) (module : Module) :
    ModuleHook × List BindingType × Except HookError Unit :=
  let moduleHook := NewModuleHook name path config module
  match orderBinding moduleHook.toCommonHook [] .BeforeHelm config.BeforeHelm with
  | (h1, a1, .error err) => ({ moduleHook with toCommonHook := h1 }, a1, .error err)
  | (h1, a1, .ok ()) =>
  match orderBinding h1 a1 .AfterHelm config.AfterHelm with
  | (h2, a2, .error err) => ({ moduleHook with toCommonHook := h2 }, a2, .error err)
  | (h2, a2, .ok ()) =>
  match orderBinding h2 a2 .AfterDeleteHelm config.AfterDeleteHelm with
  | (h3, a3, .error err) => ({ moduleHook with toCommonHook := h3 }, a3, .error err)
  | (h3, a3, .ok ()) =>
  match orderBinding h3 a3 .OnStartup config.OnStartup with
  | (h4, a4, .error err) => ({ moduleHook with toCommonHook := h4 }, a4, .error err)
  | (h4, a4, .ok ()) =>
  match listBinding h4 a4 .Schedule (goLen config.Schedule) with
  | (h5, a5) =>
  match listBinding h5 a5 .KubeEvents (goLen config.OnKubernetesEvent) with
  | (h6, a6) => ({ moduleHook with toCommonHook := h6 }, a6, .ok ())

/-- Go `addModulesHooksOrderByName` (hook.go:191). -/
def addModulesHooksOrderByName (mm : MainModuleManager) (moduleName : String)
    (bindingType : BindingType) (moduleHook : ModuleHook) : MainModuleManager :=
  let byBinding : BindingType → List ModuleHook :=
    match mm.modulesHooksOrderByName moduleName with
    | none => fun _ => []
    | some m => m
  { mm with
    modulesHooksOrderByName := fun n =>
      if n = moduleName then
        some (fun b => if b = bindingType then byBinding b ++ [moduleHook] else byBinding b)
      else mm.modulesHooksOrderByName n }

/-- Go `removeModuleHooks` (hook.go:198). -/
def removeModuleHooks (mm : MainModuleManager) (moduleName : String) : MainModuleManager :=
  { mm with
    modulesHooksOrderByName := fun n =>
      if n = moduleName then none else mm.modulesHooksOrderByName n }

/-- Go `registerModuleHook` (hook.go:137).  `GetModule` is the lookup
`mm.GetModule` of the manager. -/
def registerModuleHook (GetModule : String → Except HookError Module)
    (mm : MainModuleManager) (moduleName name path : String)
    (config : ModuleHookConfig) : MainModuleManager × Except HookError Unit :=
  match GetModule moduleName with
  | .error err => (mm, .error err)
  | .ok module =>
    match buildModuleHook name path config module with
    | (moduleHook, appended, err) =>
      (appended.foldl (fun m b => addModulesHooksOrderByName m moduleName b moduleHook) mm,
        err)

/-- A call of `registerGlobalHook`. -/
structure GlobalHookCall where
  name : String
  path : String
  config : GlobalHookConfig

/-- A sequence of `registerGlobalHook` calls on the manager, each on the state
the previous one left, whatever it returned. -/
def registerGlobalHooks (mm : MainModuleManager) : List GlobalHookCall → MainModuleManager
  | [] => mm
  | call :: calls =>
    registerGlobalHooks (registerGlobalHook mm call.name call.path call.config).1 calls

/-- The manager `initGlobalHooks` starts from (hook.go:642-643): both indices of
global hooks are empty. -/
def emptyGlobalIndices (mm : MainModuleManager) : MainModuleManager :=
  { mm with globalHooksOrder := fun _ => [], globalHooksByName := fun _ => none }

/-! ## Running a global hook -/

/-- The functions `hook.go` calls in package `utils` and in the kube config
manager.  Their source is not in `hook.go`; the embedding of `hook.go` takes
them as parameters.  An `Except.error` of `ApplyValuesPatch` is its error
result; `SetKubeGlobalValues` answers the one write a hook run makes. -/
structure Collaborators where
  MergeValues : List Values → Values
  ApplyValuesPatch : Values → ValuesPatch → Except HookError (Values × Bool)
  SetKubeGlobalValues : Values → Except HookError Unit

/-- Modelled from the spec: `utils.AppendValuesPatch`, whose source is in
package `utils`.  Section 4.4.1: on success, append the patch (not the
materialized result) to `globalDynamicValuesPatches`. -/
def AppendValuesPatch (valuesPatches : List ValuesPatch) (newValuesPatch : ValuesPatch) :
    List ValuesPatch :=
  valuesPatches ++ [newValuesPatch]

/-- Go `globalValuesMergeResult` (hook.go:203). -/
structure globalValuesMergeResult where
  Values : Values
  GlobalValues : Option (List (String × Json))
  ValuesPatch : ValuesPatch
  ValuesChanged : Bool
  deriving DecidableEq

/-- Go `GlobalHook.handleGlobalValuesPatch` (hook.go:214). -/
def handleGlobalValuesPatch (c : Collaborators) (currentValues : Values)
    (valuesPatch : ValuesPatch) : Except HookError globalValuesMergeResult :=
  let acceptableKey := "global"
  match validateHookValuesPatch valuesPatch acceptableKey with
  | .error err => .error (.mergeGlobalValuesFailed err)
  | .ok () =>
    match c.ApplyValuesPatch currentValues valuesPatch with
    | .error err => .error (.mergeGlobalValuesFailed err)
    | .ok (newValuesRaw, valuesChanged) =>
      let result : globalValuesMergeResult :=
        { Values := [(acceptableKey, .obj [])]
          GlobalValues := none
          ValuesPatch := valuesPatch
          ValuesChanged := valuesChanged }
      match mapGet newValuesRaw acceptableKey with
      | some (.obj globalValues) =>
        .ok { result with
              Values := [(acceptableKey, .obj globalValues)]
              GlobalValues := some globalValues }
      | some globalValuesRaw => .error (.expectedMap acceptableKey globalValuesRaw)
      | none => .ok result

/-- Go `GlobalHook.configValues` (hook.go:327). -/
def GlobalHook.configValues (c : Collaborators) (mm : MainModuleManager) : Values :=
  c.MergeValues [[("global", .obj [])], mm.kubeGlobalConfigValues]

/-- The loop of `GlobalHook.values` over the dynamic patches; an error result
stands for `panic(err)`. -/
def applyPatches (c : Collaborators) : Values → List ValuesPatch → Except HookError Values
  | res, [] => .ok res
  | res, patch :: rest =>
    match c.ApplyValuesPatch res patch with
    | .error err => .error err
    | .ok (res', _) => applyPatches c res' rest

/-- Go `GlobalHook.values` (hook.go:334); an error result stands for
`panic(err)`. -/
def GlobalHook.values (c : Collaborators) (mm : MainModuleManager) : Except HookError Values :=
  applyPatches c
    (c.MergeValues
      [[("global", .obj [])], mm.globalCommonStaticValues, mm.kubeGlobalConfigValues])
    mm.globalDynamicValuesPatches

/-- The map `HookExecutor.Run` returns: the config patch and the memory patch,
each nil when the hook wrote none. -/
structure Patches where
  ConfigMapPatch : Option ValuesPatch
  MemoryValuesPatch : Option ValuesPatch
  deriving DecidableEq

/-- How a call of `GlobalHook.run` ends: it returns nil, returns an error, or
panics. -/
inductive RunOutcome where
  | nil
  | error (err : HookError)
  | panic (err : HookError)
  deriving DecidableEq

/-- The manager after a call of `GlobalHook.run`, the arguments of the calls of
`SetKubeGlobalValues` it made, and how it ended. -/
structure RunResult where
  mm : MainModuleManager
  setKubeGlobalValuesCalls : List Values
  outcome : RunOutcome

/-- The config patch block of `GlobalHook.run` (hook.go:254-275). -/
def GlobalHook.runConfigValuesPatch (h : GlobalHook) (c : Collaborators)
    (mm : MainModuleManager) (configValuesPatch : Option ValuesPatch) : RunResult :=
  match configValuesPatch with
  | none => ⟨mm, [], .nil⟩
  | some patch =>
    let preparedConfigValues := c.MergeValues [[("global", .obj [])], mm.kubeGlobalConfigValues]
    match handleGlobalValuesPatch c preparedConfigValues patch with
    | .error err => ⟨mm, [], .error (.kubeConfigGlobalValuesUpdate h.Name err)⟩
    | .ok configValuesPatchResult =>
      if configValuesPatchResult.ValuesChanged then
        match c.SetKubeGlobalValues configValuesPatchResult.Values with
        | .error err =>
          ⟨mm, [configValuesPatchResult.Values], .error (.setKubeConfigFailed h.Name err)⟩
        | .ok () =>
          ⟨{ mm with kubeGlobalConfigValues := configValuesPatchResult.Values },
            [configValuesPatchResult.Values], .nil⟩
      else ⟨mm, [], .nil⟩

/-- The memory patch block of `GlobalHook.run` (hook.go:277-287).  The debug
line after the append evaluates `h.values()` on the new log. -/
def GlobalHook.runMemoryValuesPatch (h : GlobalHook) (c : Collaborators)
    (mm : MainModuleManager) (valuesPatch : Option ValuesPatch) :
    MainModuleManager × RunOutcome :=
  match valuesPatch with
  | none => (mm, .nil)
  | some patch =>
    match GlobalHook.values c mm with
    | .error err => (mm, .panic err)
    | .ok values =>
      match handleGlobalValuesPatch c values patch with
      | .error err => (mm, .error (.dynamicGlobalValuesUpdate h.Name err))
      | .ok valuesPatchResult =>
        if valuesPatchResult.ValuesChanged then
          let mm' :=
            { mm with
              globalDynamicValuesPatches :=
                AppendValuesPatch mm.globalDynamicValuesPatches valuesPatchResult.ValuesPatch }
          match GlobalHook.values c mm' with
          | .error err => (mm', .panic err)
          | .ok _ => (mm', .nil)
        else (mm, .nil)

/-- Go `GlobalHook.run` (hook.go:245).  `executorRun` is what
`globalHookExecutor.Run()` returned for this invocation. -/
def GlobalHook.run (h : GlobalHook) (c : Collaborators) (mm : MainModuleManager)
    (executorRun : Except HookError Patches) : RunResult :=
  match executorRun with
  | .error err => ⟨mm, [], .error (.globalHookFailed h.Name err)⟩
  | .ok patches =>
    match h.runConfigValuesPatch c mm patches.ConfigMapPatch with
    | ⟨mm1, calls, .nil⟩ =>
      match h.runMemoryValuesPatch c mm1 patches.MemoryValuesPatch with
      | (mm2, outcome) => ⟨mm2, calls, outcome⟩
    | stopped => stopped

/-! ## The values algebra of the specification

`MergeValues` and `ApplyValuesPatch` belong to package `utils`.  The general
theorems hold for every pair of such functions.  The definitions below follow
section 4.1 of the specification and give concrete collaborators.  A mapping is
kept as an association list sorted by key, so that equal mappings are equal
lists. -/

/-- Assignment of a member of a mapping kept sorted by key. -/
def objSet (kvs : List (String × Json)) (k : String) (v : Json) : List (String × Json) :=
  match kvs with
  | [] => [(k, v)]
  | (k', v') :: rest =>
    if k' = k then (k, v) :: rest
    else if k.data < k'.data then (k, v) :: (k', v') :: rest
    else (k', v') :: objSet rest k v

mutual
/-- Modelled from the spec: the deep merge of two trees behind
`utils.MergeValues` (section 4.1): mappings merge key by key, the later value
wins, values that are not both mappings replace, arrays are scalars. -/
def Json.merge : Json → Json → Json
  | .obj a, .obj b => .obj (Json.mergeMembers a b)
  | _, .obj b => .obj b
  | _, .null => .null
  | _, .bool x => .bool x
  | _, .num x => .num x
  | _, .str x => .str x
  | _, .arr x => .arr x
/-- The members of the later mapping merged into the earlier one. -/
def Json.mergeMembers : List (String × Json) → List (String × Json) → List (String × Json)
  | a, [] => a
  | a, (k, v) :: rest =>
    Json.mergeMembers
      (objSet a k (match mapGet a k with
        | some va => Json.merge va v
        | none => v)) rest
end

/-- Modelled from the spec: `utils.MergeValues` (section 4.1), the merge of the
given trees from left to right. -/
def specMergeValues (values : List Values) : Values :=
  values.foldl Json.mergeMembers []

/-- The reference tokens of a JSON pointer; `~1` stands for a slash and `~0` for
a tilde. -/
def unescapeToken : List Char → List Char
  | '~' :: '1' :: cs => '/' :: unescapeToken cs
  | '~' :: '0' :: cs => '~' :: unescapeToken cs
  | c :: cs => c :: unescapeToken cs
  | [] => []

/-- The reference tokens of a path: the empty path is the root; any other path
starts with a slash. -/
def pointerTokens (path : String) : Option (List String) :=
  match splitChars '/' path.data with
  | [] :: tokens => some (tokens.map (fun t => String.mk (unescapeToken t)))
  | _ => none

/-- The array index a reference token denotes. -/
def arrayIndex (token : String) : Option Nat :=
  if token.data ≠ [] ∧ token.data.all Char.isDigit = true then
    some (token.data.foldl (fun n ch => 10 * n + (ch.toNat - 48)) 0)
  else none

/-- Insertion of an element before position `i` of an array. -/
def insertAt (xs : List Json) (i : Nat) (v : Json) : List Json :=
  xs.take i ++ v :: xs.drop i

/-- The value at a location. -/
def Json.getAt : List String → Json → Option Json
  | [], doc => some doc
  | t :: ts, .obj kvs =>
    match mapGet kvs t with
    | some child => Json.getAt ts child
    | none => none
  | t :: ts, .arr xs =>
    match arrayIndex t with
    | some i =>
      match xs.get? i with
      | some child => Json.getAt ts child
      | none => none
    | none => none
  | _ :: _, _ => none

/-- JSON Patch `add`: the document with the value added at the location. -/
def Json.addAt : List String → Json → Json → Option Json
  | [], _, v => some v
  | [t], .obj kvs, v => some (.obj (objSet kvs t v))
  | [t], .arr xs, v =>
    if t = "-" then some (.arr (xs ++ [v]))
    else
      match arrayIndex t with
      | some i => if i ≤ xs.length then some (.arr (insertAt xs i v)) else none
      | none => none
  | t :: ts, .obj kvs, v =>
    match mapGet kvs t with
    | some child =>
      match Json.addAt ts child v with
      | some child' => some (.obj (objSet kvs t child'))
      | none => none
    | none => none
  | t :: ts, .arr xs, v =>
    match arrayIndex t with
    | some i =>
      match xs.get? i with
      | some child =>
        match Json.addAt ts child v with
        | some child' => some (.arr (xs.set i child'))
        | none => none
      | none => none
    | none => none
  | _ :: _, _, _ => none

/-- JSON Patch `remove`: the document without the value at the location, which
must exist. -/
def Json.removeAt : List String → Json → Option Json
  | [], _ => none
  | [t], .obj kvs =>
    match mapGet kvs t with
    | some _ => some (.obj (kvs.filter (fun kv => kv.1 ≠ t)))
    | none => none
  | [t], .arr xs =>
    match arrayIndex t with
    | some i => if i < xs.length then some (.arr (xs.eraseIdx i)) else none
    | none => none
  | t :: ts, .obj kvs =>
    match mapGet kvs t with
    | some child =>
      match Json.removeAt ts child with
      | some child' => some (.obj (objSet kvs t child'))
      | none => none
    | none => none
  | t :: ts, .arr xs =>
    match arrayIndex t with
    | some i =>
      match xs.get? i with
      | some child =>
        match Json.removeAt ts child with
        | some child' => some (.arr (xs.set i child'))
        | none => none
      | none => none
    | none => none
  | _ :: _, _ => none

/-- Modelled from the spec: one operation of `utils.ApplyValuesPatch` (sections
3 and 4.1).  The recognized operations are `add`, `remove`, `test`, `move` and
`copy` with JSON Patch semantics; an operation is an `(op, path, value)` triple,
so `move` and `copy` lack the source location that JSON Patch requires and
fail, as does an invalid path, a failed `test` and any other operation name. -/
def applyOperation (doc : Json) (op : ValuesPatchOperation) : Except HookError Json :=
  match pointerTokens op.Path with
  | none => .error (.external "invalid path")
  | some tokens =>
    if op.Op = "add" then
      match Json.addAt tokens doc op.Value with
      | some doc' => .ok doc'
      | none => .error (.external "add: invalid path")
    else if op.Op = "remove" then
      match Json.removeAt tokens doc with
      | some doc' => .ok doc'
      | none => .error (.external "remove: invalid path")
    else if op.Op = "test" then
      match Json.getAt tokens doc with
      | some v => if v = op.Value then .ok doc else .error (.external "test: mismatch")
      | none => .error (.external "test: invalid path")
    else if op.Op = "move" ∨ op.Op = "copy" then
      .error (.external "missing source location")
    else .error (.external "unrecognized operation")

/-- The operations of a patch applied in sequence. -/
def applyOperations : Json → List ValuesPatchOperation → Except HookError Json
  | doc, [] => .ok doc
  | doc, op :: ops =>
    match applyOperation doc op with
    | .error err => .error err
    | .ok doc' => applyOperations doc' ops

/-- Modelled from the spec: `utils.ApplyValuesPatch` (section 4.1).  It applies
the operations in sequence and returns the new tree with `changed = true` iff
the new tree differs from the input; a failing operation or a result that is
not a mapping is an error. -/
def specApplyValuesPatch (values : Values) (valuesPatch : ValuesPatch) :
    Except HookError (Values × Bool) :=
  match applyOperations (.obj values) valuesPatch.Operations with
  | .error err => .error err
  | .ok (.obj res) => .ok (res, decide (res ≠ values))
  | .ok _ => .error (.external "values are not a mapping")

/-- The collaborators of the specification, with a kube config manager that
accepts or rejects every write. -/
def specCollaborators (persist : Bool) : Collaborators :=
  { MergeValues := specMergeValues
    ApplyValuesPatch := specApplyValuesPatch
    SetKubeGlobalValues := fun _ =>
      if persist then .ok () else .error (.external "kube config manager failed") }

/-- The contract of `ApplyValuesPatch` on its flag (section 4.1: `changed=true`
iff the resulting tree differs from the input), in the direction the manager
relies on: a result reported as unchanged is the input tree. -/
def Collaborators.UnchangedIsInput (c : Collaborators) : Prop :=
  ∀ (values : Values) (patch : ValuesPatch) (res : Values),
    c.ApplyValuesPatch values patch = .ok (res, false) → res = values

/-! ## Values patches of a module hook -/

/-- Go `moduleValuesMergeResult` (hook.go:429). -/
structure moduleValuesMergeResult where
  Values : Values
  ModuleValues : Option (List (String × Json))
  ModuleValuesKey : String
  ValuesPatch : ValuesPatch
  ValuesChanged : Bool
  deriving DecidableEq

/-- Go `ModuleHook.handleModuleValuesPatch` (hook.go:451).
`ModuleNameToValuesKey` is the function of package `utils` that maps a module
name to its values key. -/
def handleModuleValuesPatch (c : Collaborators) (ModuleNameToValuesKey : String → String)
    (h : ModuleHook) (currentValues : Values) (valuesPatch : ValuesPatch) :
    Except HookError moduleValuesMergeResult :=
  let moduleValuesKey := ModuleNameToValuesKey h.Module.Name
  match validateHookValuesPatch valuesPatch moduleValuesKey with
  | .error err => .error (.mergeModuleValuesFailed h.Module.Name err)
  | .ok () =>
    match c.ApplyValuesPatch currentValues valuesPatch with
    | .error err => .error (.mergeModuleValuesFailed h.Module.Name err)
    | .ok (newValuesRaw, valuesChanged) =>
      let result : moduleValuesMergeResult :=
        { ModuleValuesKey := moduleValuesKey
          Values := [(moduleValuesKey, .obj [])]
          ModuleValues := none
          ValuesChanged := valuesChanged
          ValuesPatch := valuesPatch }
      match mapGet newValuesRaw result.ModuleValuesKey with
      | some (.obj moduleValues) =>
        .ok { result with
              Values := [(result.ModuleValuesKey, .obj moduleValues)]
              ModuleValues := some moduleValues }
      | some moduleValuesRaw => .error (.expectedMap result.ModuleValuesKey moduleValuesRaw)
      | none => .ok result

/-! ## Preparing a hook config -/

/-- The body of the loop of `prepareHookConfig` (hook.go:623-635) on one
`onKubernetesEvent` entry. -/
def prepareOnKubernetesEventConfig (config : OnKubernetesEventConfig) :
    OnKubernetesEventConfig :=
  let config1 : OnKubernetesEventConfig :=
    match config.EventTypes with
    | none =>
      { config with
        EventTypes := some [.KubernetesEventOnAdd, .KubernetesEventOnUpdate,
          .KubernetesEventOnDelete] }
    | some _ => config
  match config1.NamespaceSelector with
  | none => { config1 with NamespaceSelector := some { MatchNames := none, Any := true } }
  | some _ => config1

/-- Go `prepareHookConfig` (hook.go:621): the config after the call.  Ranging
over a nil slice leaves it nil. -/
def prepareHookConfig (hookConfig : HookConfig) : HookConfig :=
  { hookConfig with
    OnKubernetesEvent :=
      match hookConfig.OnKubernetesEvent with
      | none => none
      | some entries => some (entries.map prepareOnKubernetesEventConfig) }

/-! ## The operating system and the libraries

What `hook.go` asks of the file system, of `path/filepath`, of `encoding/json`,
of the `sanitize` library and of the hook executables. -/

/-- The functions of the environment that hook discovery and the temporary
files use.  `configOutput` is the output of a hook run with `--config`. -/
structure System where
  Join : String → String → String
  Dir : String → String
  Rel : String → String → Except HookError String
  BaseName : String → String
  notExist : String → Bool
  FindExecutableFilesInPath : String → Except HookError (List String)
  configOutput : String → Except HookError String
  UnmarshalModuleHookConfig : String → Except HookError ModuleHookConfig
  GetModule : String → Except HookError Module
  OpenFile : String → Except HookError Unit

/-- Go `CommonHook.SafeName` (hook.go:439). -/
def CommonHook.SafeName (sys : System) (h : CommonHook) : String :=
  sys.BaseName h.Name

/-- Modelled from the spec: `Module.SafeName`, whose source is in `module.go`.
Design notes: temp-file names derive from a name-sanitization function that is
a pure mapping from a name to a safe name. -/
def Module.SafeName (sys : System) (m : Module) : String :=
  sys.BaseName m.Name

/-! ## Patch files -/

/-- Go `createHookResultValuesFile` (hook.go:777): both the failure and the
success of `os.OpenFile` end in `return nil`. -/
def createHookResultValuesFile (sys : System) (filePath : String) : Except HookError Unit :=
  match sys.OpenFile filePath with
  | .error _ => .ok ()
  | .ok () => .ok ()

/-- Go `GlobalHook.prepareConfigValuesJsonPatchFile` (hook.go:744). -/
def GlobalHook.prepareConfigValuesJsonPatchFile (sys : System) (tempDir : String)
    (h : GlobalHook) : Except HookError String :=
  let path := sys.Join tempDir
    (h.toCommonHook.SafeName sys ++ ".global-hook-config-values.json-patch")
  match createHookResultValuesFile sys path with
  | .error err => .error err
  | .ok () => .ok path

/-- Go `GlobalHook.prepareValuesJsonPatchFile` (hook.go:752). -/
def GlobalHook.prepareValuesJsonPatchFile (sys : System) (tempDir : String)
    (h : GlobalHook) : Except HookError String :=
  let path := sys.Join tempDir (h.toCommonHook.SafeName sys ++ ".global-hook-values.json-patch")
  match createHookResultValuesFile sys path with
  | .error err => .error err
  | .ok () => .ok path

/-- Go `ModuleHook.prepareConfigValuesJsonPatchFile` (hook.go:760). -/
def ModuleHook.prepareConfigValuesJsonPatchFile (sys : System) (tempDir : String)
    (h : ModuleHook) : Except HookError String :=
  let path := sys.Join tempDir
    (h.toCommonHook.SafeName sys ++ ".global-hook-config-values.json-patch")
  match createHookResultValuesFile sys path with
  | .error err => .error err
  | .ok () => .ok path

/-- Go `ModuleHook.prepareValuesJsonPatchFile` (hook.go:768). -/
def ModuleHook.prepareValuesJsonPatchFile (sys : System) (tempDir : String)
    (h : ModuleHook) : Except HookError String :=
  let path := sys.Join tempDir (h.toCommonHook.SafeName sys ++ ".global-hook-values.json-patch")
  match createHookResultValuesFile sys path with
  | .error err => .error err
  | .ok () => .ok path

/-- The file name of `ModuleHook.prepareBindingContextJsonFile` (hook.go:610),
the sibling helper of a module hook, which names the module and the hook. -/
def ModuleHook.bindingContextFileName (sys : System) (h : ModuleHook) : String :=
  h.Module.SafeName sys ++ ".module-hook-" ++ h.toCommonHook.SafeName sys ++
    "-binding-context.json"

/-! ## Discovery of module hooks -/

/-- The loop of `initHooks` over the executables (hook.go:728-738). -/
def initHooksLoop (sys : System)
    (addHookFn : MainModuleManager → String → String →
      MainModuleManager × Except HookError Unit) :
    MainModuleManager → List String → MainModuleManager × Except HookError Unit
  | mm, [] => (mm, .ok ())
  | mm, hookPath :: rest =>
    match sys.configOutput hookPath with
    | .error err => (mm, .error (.cannotGetHookConfig hookPath err))
    | .ok output =>
      match addHookFn mm hookPath output with
      | (mm', .error err) => (mm', .error err)
      | (mm', .ok ()) => initHooksLoop sys addHookFn mm' rest

/-- Go `initHooks` (hook.go:717). -/
def initHooks (sys : System) (hooksDir : String)
    (addHookFn : MainModuleManager → String → String →
      MainModuleManager × Except HookError Unit)
    (mm : MainModuleManager) : MainModuleManager × Except HookError Unit :=
  if sys.notExist hooksDir then (mm, .ok ())
  else
    match sys.FindExecutableFilesInPath hooksDir with
    | .error err => (mm, .error err)
    | .ok hooksRelativePaths => initHooksLoop sys addHookFn mm hooksRelativePaths

/-- The function literal that `initModuleHooks` passes to `initHooks`
(hook.go:686-706). -/
def addModuleHook (sys : System) (module : Module) (mm : MainModuleManager)
    (hookPath output : String) : MainModuleManager × Except HookError Unit :=
  match sys.Rel (sys.Dir module.Path) hookPath with
  | .error err => (mm, .error err)
  | .ok hookName =>
    match sys.UnmarshalModuleHookConfig output with
    | .error err =>
      (mm, .error (.unmarshalModuleHookFailed (module.SafeName sys) hookName err))
    | .ok decoded =>
      let hookConfig : ModuleHookConfig :=
        { decoded with toHookConfig := prepareHookConfig decoded.toHookConfig }
      match registerModuleHook sys.GetModule mm module.Name hookName hookPath hookConfig with
      | (mm', .error err) =>
        (mm', .error (.addModuleHookFailed (module.SafeName sys) hookName err))
      | (mm', .ok ()) => (mm', .ok ())

/-- The test of `initModuleHooks` for its early return (hook.go:677): the module
has an entry in `modulesHooksOrderByName`. -/
def alreadyInitialized (mm : MainModuleManager) (module : Module) : Bool :=
  (mm.modulesHooksOrderByName module.Name).isSome

/-- Go `initModuleHooks` (hook.go:676). -/
def initModuleHooks (sys : System) (mm : MainModuleManager) (module : Module) :
    MainModuleManager × Except HookError Unit :=
  if alreadyInitialized mm module then (mm, .ok ())
  else
    let hooksDir := sys.Join module.Path "hooks"
    match initHooks sys hooksDir (addModuleHook sys module) mm with
    | (mm', .error err) => (removeModuleHooks mm' module.Name, .error err)
    | (mm', .ok ()) => (mm', .ok ())

/-! ## Sequences of hook runs -/

/-- One invocation of `GlobalHook.run`: the hook and what its executor
returned. -/
structure Invocation where
  hook : GlobalHook
  executorRun : Except HookError Patches

/-- The manager after a sequence of invocations of `GlobalHook.run`. -/
def runAll (c : Collaborators) : MainModuleManager → List Invocation → MainModuleManager
  | mm, [] => mm
  | mm, inv :: rest => runAll c (inv.hook.run c mm inv.executorRun).mm rest

/-- Every invocation of the sequence returns nil. -/
def allReturnNil (c : Collaborators) : MainModuleManager → List Invocation → Prop
  | _, [] => True
  | mm, inv :: rest =>
    (inv.hook.run c mm inv.executorRun).outcome = .nil ∧
      allReturnNil c (inv.hook.run c mm inv.executorRun).mm rest

/-- Every binding of the key in the tree is a mapping; a tree without the key
qualifies. -/
def bindsOnlyMappings (values : Values) (key : String) : Prop :=
  ∀ v, (key, v) ∈ values → ∃ m, v = Json.obj m

/-- The key is bound to a mapping in the tree. -/
def boundToMapping (values : Values) (key : String) : Prop :=
  ∃ m, mapGet values key = some (Json.obj m)

/-- The contract of `MergeValues` that the scope invariant relies on (section
4.1: deep merge of mappings, non-map values replace): merging `{global: {}}`
with a tree that binds `global` to mappings only gives a tree with `global`
bound to a mapping. -/
def Collaborators.MergeKeepsGlobal (c : Collaborators) : Prop :=
  ∀ values : Values, bindsOnlyMappings values "global" →
    boundToMapping (c.MergeValues [[("global", .obj [])], values]) "global"

/-! ### Reading a hook config -/

/-- The value is a JSON number: the type assertion `.(float64)` succeeds. -/
def Json.isNumber : Json → Bool
  | .num _ => true
  | _ => false

/-- The value of an order field is absent (nil) or a number. -/
def Json.isOrder (v : Json) : Bool :=
  decide (v = Json.null) || v.isNumber

/-- The key of the binding kind is present in the config a global hook
declares: the decoded field is not nil. -/
def GlobalHookConfig.keyPresent (c : GlobalHookConfig) : BindingType → Prop
  | .BeforeAll => c.BeforeAll ≠ Json.null
  | .AfterAll => c.AfterAll ≠ Json.null
  | .OnStartup => c.OnStartup ≠ Json.null
  | .Schedule => c.Schedule ≠ none
  | .KubeEvents => c.OnKubernetesEvent ≠ none
  | _ => False

/-- The config of a global hook declares the binding kind with content: a
non-null value for `beforeAll`, `afterAll` and `onStartup`, a non-empty array
for `schedule` and `onKubernetesEvent`. -/
def GlobalHookConfig.declares (c : GlobalHookConfig) : BindingType → Prop
  | .BeforeAll => c.BeforeAll ≠ Json.null
  | .AfterAll => c.AfterAll ≠ Json.null
  | .OnStartup => c.OnStartup ≠ Json.null
  | .Schedule => goLen c.Schedule ≠ 0
  | .KubeEvents => goLen c.OnKubernetesEvent ≠ 0
  | _ => False

instance (c : GlobalHookConfig) (b : BindingType) : Decidable (c.declares b) := by
  cases b <;> unfold GlobalHookConfig.declares <;> infer_instance

/-- The value configured for an order-bearing binding kind of a global hook. -/
def GlobalHookConfig.orderValue (c : GlobalHookConfig) : BindingType → Option Json
  | .BeforeAll => some c.BeforeAll
  | .AfterAll => some c.AfterAll
  | .OnStartup => some c.OnStartup
  | _ => none

/-- The block of the binding kind in `registerGlobalHook` is reached and
appends the hook to the binding list: the config declares the kind, with a
number when it bears an order, and every order field of an earlier block is
absent or a number. -/
def GlobalHookConfig.reaches (c : GlobalHookConfig) : BindingType → Bool
  | .BeforeAll => c.BeforeAll.isNumber
  | .AfterAll => c.BeforeAll.isOrder && c.AfterAll.isNumber
  | .OnStartup => c.BeforeAll.isOrder && c.AfterAll.isOrder && c.OnStartup.isNumber
  | .Schedule =>
    c.BeforeAll.isOrder && c.AfterAll.isOrder && c.OnStartup.isOrder &&
      decide (goLen c.Schedule ≠ 0)
  | .KubeEvents =>
    c.BeforeAll.isOrder && c.AfterAll.isOrder && c.OnStartup.isOrder &&
      decide (goLen c.OnKubernetesEvent ≠ 0)
  | _ => false

/-- A manager with empty indices, no values and an empty patch log. -/
def emptyManager : MainModuleManager :=
  { globalHooksOrder := fun _ => []
    globalHooksByName := fun _ => none
    modulesHooksOrderByName := fun _ => none
    globalCommonStaticValues := []
    kubeGlobalConfigValues := []
    globalDynamicValuesPatches := [] }

/-- The value of an order field is present (non-null) and not a number. -/
def Json.isBadOrder (v : Json) : Prop :=
  v ≠ Json.null ∧ v.isNumber = false

/-- The hook object a call of `registerGlobalHook` builds. -/
def GlobalHookCall.hook (call : GlobalHookCall) : GlobalHook :=
  (buildGlobalHook call.name call.path call.config).1

/-- A hook config with `beforeAll: 10`, `onStartup: 5` and one schedule entry. -/
def sampleGlobalConfig : GlobalHookConfig :=
  { OnStartup := .num 5
    Schedule := some [⟨.str "*/5 * * * *"⟩]
    OnKubernetesEvent := none
    BeforeAll := .num 10
    AfterAll := .null }

/-- The hook config decoded from `{"schedule": []}`. -/
def emptyScheduleConfig : GlobalHookConfig :=
  { OnStartup := .null
    Schedule := some []
    OnKubernetesEvent := none
    BeforeAll := .null
    AfterAll := .null }

/-- The hook config decoded from `{"beforeAll": 1, "afterAll": "last"}`. -/
def badAfterAllConfig : GlobalHookConfig :=
  { OnStartup := .null
    Schedule := none
    OnKubernetesEvent := none
    BeforeAll := .num 1
    AfterAll := .str "last" }

/-- The module hook config decoded from `{"beforeHelm": 1, "afterHelm": true}`. -/
def badAfterHelmConfig : ModuleHookConfig :=
  { OnStartup := .null
    Schedule := none
    OnKubernetesEvent := none
    BeforeHelm := .num 1
    AfterHelm := .bool true
    AfterDeleteHelm := .null }

/-- A module lookup that finds the module "mod" only. -/
def sampleGetModule (moduleName : String) : Except HookError Module :=
  if moduleName = "mod" then .ok ⟨"mod", "/modules/mod"⟩
  else .error (.external "module not found")

/-- A manager whose by-name index holds a hook under the name "hook". -/
def managerWithHook : MainModuleManager :=
  { emptyManager with
    globalHooksByName := fun n =>
      if n = "hook" then some (NewGlobalHook "hook" "/hooks/old" emptyScheduleConfig)
      else none }

/-- A manager whose kube config values are `{global: {x: 1}}`. -/
def managerWithX : MainModuleManager :=
  { emptyManager with kubeGlobalConfigValues := [("global", .obj [("x", .num 1)])] }

/-- The patch `[{op: add, path: /global/x, value: 1}]`. -/
def addXPatch : ValuesPatch := ⟨[⟨"add", "/global/x", .num 1⟩]⟩

/-- The patch `[{op: replace, path: /global/x, value: 2}]`. -/
def replaceXPatch : ValuesPatch := ⟨[⟨"replace", "/global/x", .num 2⟩]⟩

/-- The patch `[{op: add, path: /other/x, value: 1}]`, outside the global scope. -/
def otherScopePatch : ValuesPatch := ⟨[⟨"add", "/other/x", .num 1⟩]⟩

/-- Two calls of `registerGlobalHook` that both return nil. -/
def sampleCalls : List GlobalHookCall :=
  [⟨"a", "/hooks/a", sampleGlobalConfig⟩, ⟨"b", "/hooks/b", emptyScheduleConfig⟩]

/-- A global hook named "hook". -/
def sampleHook : GlobalHook := NewGlobalHook "hook" "/hooks/hook" sampleGlobalConfig

/-- The patch `[{op: remove, path: /global}]`. -/
def removeGlobalPatch : ValuesPatch := ⟨[⟨"remove", "/global", .null⟩]⟩

/-- The patch `[{op: remove, path: /global/x}]`. -/
def removeXPatch : ValuesPatch := ⟨[⟨"remove", "/global/x", .null⟩]⟩

/-- The patch `[{op: add, path: /global, value: "text"}]`. -/
def globalTextPatch : ValuesPatch := ⟨[⟨"add", "/global", .str "text"⟩]⟩

/-- The patch `[{op: add, path: /mod/y, value: 1}]` of a hook of module "mod". -/
def addModYPatch : ValuesPatch := ⟨[⟨"add", "/mod/y", .num 1⟩]⟩

/-- A module hook config without bindings. -/
def emptyModuleConfig : ModuleHookConfig :=
  { OnStartup := .null
    Schedule := none
    OnKubernetesEvent := none
    BeforeHelm := .null
    AfterHelm := .null
    AfterDeleteHelm := .null }

/-- The hook "mod/hooks/hook" of the module "mod". -/
def sampleModuleHook : ModuleHook :=
  NewModuleHook "mod/hooks/hook" "/modules/mod/hooks/hook" emptyModuleConfig
    ⟨"mod", "/modules/mod"⟩

/-- The module "mod". -/
def sampleModule : Module := ⟨"mod", "/modules/mod"⟩

/-- The module hook config decoded from `{"beforeHelm": 1}`. -/
def beforeHelmConfig : ModuleHookConfig :=
  { OnStartup := .null
    Schedule := none
    OnKubernetesEvent := none
    BeforeHelm := .num 1
    AfterHelm := .null
    AfterDeleteHelm := .null }

/-- An environment in which the module "mod" has the executable hooks `a` and
`b`; hook `a` declares `{"beforeHelm": 1}` and hook `b` declares
`{"beforeHelm": 1, "afterHelm": true}`, which registration refuses. -/
def sampleSystem : System :=
  { Join := fun dir name => dir ++ "/" ++ name
    Dir := fun _ => "/modules"
    Rel := fun _ target => .ok target
    BaseName := id
    notExist := fun _ => false
    FindExecutableFilesInPath := fun _ => .ok ["/modules/mod/hooks/a", "/modules/mod/hooks/b"]
    configOutput := fun hookPath => .ok hookPath
    UnmarshalModuleHookConfig := fun output =>
      if output = "/modules/mod/hooks/a" then .ok beforeHelmConfig else .ok badAfterHelmConfig
    GetModule := sampleGetModule
    OpenFile := fun _ => .ok () }

/-- Two invocations on the empty manager: the first returns the config patch
`add /global/x 1` and the memory patch `remove /global/x`, the second returns
the config patch `remove /global/x`. -/
def staleLogInvocations : List Invocation :=
  [⟨sampleHook, .ok ⟨some addXPatch, some removeXPatch⟩⟩,
    ⟨sampleHook, .ok ⟨some removeXPatch, none⟩⟩]

/-! ### Facts about `strings.Split` -/

theorem splitChars_eq (sep : Char) (cs : List Char) :
    splitChars sep cs = cs.takeWhile (fun c => c != sep) ::
      (match cs.dropWhile (fun c => c != sep) with
        | [] => []
        | _ :: rest => splitChars sep rest) := by
  induction cs with
  | nil => simp [splitChars]
  | cons c cs ih =>
    by_cases h : c = sep
    · subst h; simp [splitChars]
    · rw [splitChars, if_neg h, ih]
      simp [h]

theorem split_of_firstPathSegment_none (path : String) (h : firstPathSegment path = none) :
    ∃ a, strings.Split path '/' = [a] := by
  unfold firstPathSegment at h
  unfold strings.Split
  rw [splitChars_eq]
  split at h
  · exact ⟨_, rfl⟩
  · cases h

theorem split_of_firstPathSegment_some (path seg : String)
    (h : firstPathSegment path = some seg) :
    ∃ a tl, strings.Split path '/' = a :: seg :: tl := by
  unfold firstPathSegment at h
  unfold strings.Split
  rw [splitChars_eq]
  split at h
  · cases h
  · rename_i c rest heq
    simp only [Option.some.injEq] at h
    subst h
    rw [splitChars_eq '/' rest]
    exact ⟨_, _, rfl⟩

theorem firstPathSegment_none_iff (path : String) :
    firstPathSegment path = none ↔ '/' ∉ path.data := by
  unfold firstPathSegment
  constructor
  · intro h
    split at h
    · rename_i heq
      intro hmem
      have := (List.dropWhile_eq_nil_iff.mp heq) _ hmem
      simp at this
    · cases h
  · intro h
    have : path.data.dropWhile (fun c => c != '/') = [] := by
      rw [List.dropWhile_eq_nil_iff]
      intro x hx
      have : x ≠ '/' := by rintro rfl; exact h hx
      simpa using this
    rw [this]

/-- Acceptance of one operation by the loop body of `validateHookValuesPatch`. -/
theorem validateOperations_ok_iff (key : String) (ops : List ValuesPatchOperation) :
    validateOperations key ops = .ok () ↔
      (∀ op ∈ ops, op.Op ≠ "replace") ∧
      (∀ op ∈ ops, firstPathSegment op.Path = none ∨ firstPathSegment op.Path = some key) := by
  induction ops with
  | nil => simp [validateOperations]
  | cons op rest ih =>
    rw [validateOperations]
    by_cases hr : op.Op = "replace"
    · simp [hr]
    · rw [if_neg hr]
      cases hseg : firstPathSegment op.Path with
      | none =>
        obtain ⟨a, ha⟩ := split_of_firstPathSegment_none _ hseg
        rw [ha]
        simp [ih, hr, hseg]
      | some seg =>
        obtain ⟨a, tl, ha⟩ := split_of_firstPathSegment_some _ _ hseg
        rw [ha]
        by_cases hk : seg = key
        · subst hk
          simp [ih, hr, hseg]
        · simp [hr, hseg, hk]

/-! ### Facts about registration -/

theorem Json.order_cases (v : Json) :
    v = Json.null ∨ (∃ x, v = Json.num x) ∨ (v ≠ Json.null ∧ v.isNumber = false) := by
  cases v <;> simp [Json.isNumber]

theorem orderBinding_null (hook : CommonHook) (a : List BindingType) (b : BindingType) :
    orderBinding hook a b Json.null = (hook, a, .ok ()) := by
  simp [orderBinding]

theorem orderBinding_num (hook : CommonHook) (a : List BindingType) (b : BindingType)
    (x : Float64) :
    orderBinding hook a b (Json.num x) =
      ({ hook with
          Bindings := hook.Bindings ++ [b]
          OrderByBinding := mapSet hook.OrderByBinding b x }, a ++ [b], .ok ()) := by
  simp [orderBinding]

theorem orderBinding_other (hook : CommonHook) (a : List BindingType) (b : BindingType)
    (v : Json) (h1 : v ≠ Json.null) (h2 : v.isNumber = false) :
    orderBinding hook a b v =
      ({ hook with
          Bindings := hook.Bindings ++ [b]
          OrderByBinding := mapSet hook.OrderByBinding b 0 }, a,
        .error (.unsupportedValue v b)) := by
  cases v <;> simp_all [orderBinding, Json.isNumber]

theorem registerGlobalHook_error_eq (mm : MainModuleManager) (name path : String)
    (config : GlobalHookConfig) :
    (registerGlobalHook mm name path config).2 = (buildGlobalHook name path config).2.2 := by
  unfold registerGlobalHook
  split <;> rename_i h <;> rw [h]

theorem registerGlobalHook_order (mm : MainModuleManager) (name path : String)
    (config : GlobalHookConfig) (b : BindingType) :
    (registerGlobalHook mm name path config).1.globalHooksOrder b =
      mm.globalHooksOrder b ++
        (if b ∈ (buildGlobalHook name path config).2.1
          then [(buildGlobalHook name path config).1] else []) := by
  unfold registerGlobalHook
  split <;> rename_i h <;> rw [h] <;> simp only <;> split <;> simp

theorem registerGlobalHook_byName_ok (mm : MainModuleManager) (name path : String)
    (config : GlobalHookConfig)
    (h : (buildGlobalHook name path config).2.2 = .ok ()) (n : String) :
    (registerGlobalHook mm name path config).1.globalHooksByName n =
      if n = name then some (buildGlobalHook name path config).1
      else mm.globalHooksByName n := by
  unfold registerGlobalHook
  split
  · rename_i h'
    rw [h'] at h
    cases h
  · rename_i h'
    rw [h']

theorem registerGlobalHook_byName_error (mm : MainModuleManager) (name path : String)
    (config : GlobalHookConfig) (e : HookError)
    (h : (buildGlobalHook name path config).2.2 = .error e) :
    (registerGlobalHook mm name path config).1.globalHooksByName = mm.globalHooksByName := by
  unfold registerGlobalHook
  split
  · rfl
  · rename_i h'
    rw [h'] at h
    cases h

theorem Json.isNumber_null : Json.null.isNumber = false := rfl

theorem Json.isNumber_num (x : Float64) : (Json.num x).isNumber = true := rfl

theorem goLen_cases {α : Type} (s : Option (List α)) : goLen s = 0 ∨ goLen s ≠ 0 :=
  Nat.eq_zero_or_pos (goLen s) |>.imp id Nat.pos_iff_ne_zero.mp

theorem buildGlobalHook_ok_iff (name path : String) (config : GlobalHookConfig) :
    (buildGlobalHook name path config).2.2 = .ok () ↔
      config.BeforeAll.isOrder = true ∧ config.AfterAll.isOrder = true ∧
        config.OnStartup.isOrder = true := by
  rcases Json.order_cases config.BeforeAll with h1 | ⟨x1, h1⟩ | ⟨h1, h1'⟩ <;>
  rcases Json.order_cases config.AfterAll with h2 | ⟨x2, h2⟩ | ⟨h2, h2'⟩ <;>
  rcases Json.order_cases config.OnStartup with h3 | ⟨x3, h3⟩ | ⟨h3, h3'⟩ <;>
  simp [buildGlobalHook, orderBinding_null, orderBinding_num, orderBinding_other, Json.isOrder,
    Json.isNumber_null, Json.isNumber_num, *]

theorem listBinding_eq (hook : CommonHook) (a : List BindingType) (b : BindingType) (n : Nat) :
    listBinding hook a b n =
      ({ hook with Bindings := hook.Bindings ++ (if n ≠ 0 then [b] else []) },
        a ++ (if n ≠ 0 then [b] else [])) := by
  unfold listBinding
  split <;> simp

theorem mem_appended_iff (name path : String) (config : GlobalHookConfig) (b : BindingType) :
    b ∈ (buildGlobalHook name path config).2.1 ↔ config.reaches b = true := by
  obtain ⟨⟨os, sch, kube⟩, ba, aa⟩ := config
  rcases Json.order_cases ba with rfl | ⟨x1, rfl⟩ | ⟨h1, h1'⟩ <;>
  rcases Json.order_cases aa with rfl | ⟨x2, rfl⟩ | ⟨h2, h2'⟩ <;>
  rcases Json.order_cases os with rfl | ⟨x3, rfl⟩ | ⟨h3, h3'⟩ <;>
  simp only [buildGlobalHook, orderBinding_null, orderBinding_num, listBinding_eq,
    NewGlobalHook, NewHook] <;>
  rcases goLen_cases sch with h4 | h4 <;>
  rcases goLen_cases kube with h5 | h5 <;>
  cases b <;>
  simp [orderBinding_other, Json.isOrder, Json.isNumber_null, Json.isNumber_num,
    GlobalHookConfig.reaches, *]

theorem buildGlobalHook_name_config (name path : String) (config : GlobalHookConfig) :
    (buildGlobalHook name path config).1.Name = name ∧
      (buildGlobalHook name path config).1.Path = path ∧
      (buildGlobalHook name path config).1.Config = config := by
  obtain ⟨⟨os, sch, kube⟩, ba, aa⟩ := config
  rcases Json.order_cases ba with rfl | ⟨x1, rfl⟩ | ⟨h1, h1'⟩ <;>
  rcases Json.order_cases aa with rfl | ⟨x2, rfl⟩ | ⟨h2, h2'⟩ <;>
  rcases Json.order_cases os with rfl | ⟨x3, rfl⟩ | ⟨h3, h3'⟩ <;>
  simp [buildGlobalHook, orderBinding_null, orderBinding_num, orderBinding_other, listBinding_eq,
    NewGlobalHook, NewHook, *]

theorem buildGlobalHook_ok_hook (name path : String) (config : GlobalHookConfig)
    (h : (buildGlobalHook name path config).2.2 = .ok ()) :
    (buildGlobalHook name path config).1.Bindings.Nodup ∧
      (∀ b, b ∈ (buildGlobalHook name path config).1.Bindings ↔ config.declares b) ∧
      (∀ b x, mapGet (buildGlobalHook name path config).1.OrderByBinding b = some x ↔
        config.orderValue b = some (Json.num x)) := by
  obtain ⟨o1, o2, o3⟩ := (buildGlobalHook_ok_iff name path config).mp h
  obtain ⟨⟨os, sch, kube⟩, ba, aa⟩ := config
  simp only at o1 o2 o3
  rcases Json.order_cases ba with rfl | ⟨x1, rfl⟩ | ⟨h1, h1'⟩
  rotate_left 2
  · simp [Json.isOrder, h1, h1'] at o1
  all_goals
    rcases Json.order_cases aa with rfl | ⟨x2, rfl⟩ | ⟨h2, h2'⟩
    rotate_left 2
    · simp [Json.isOrder, h2, h2'] at o2
    all_goals
      rcases Json.order_cases os with rfl | ⟨x3, rfl⟩ | ⟨h3, h3'⟩
      rotate_left 2
      · simp [Json.isOrder, h3, h3'] at o3
      all_goals
        simp only [buildGlobalHook, orderBinding_null, orderBinding_num, listBinding_eq,
          NewGlobalHook, NewHook]
        rcases goLen_cases sch with h4 | h4 <;>
        rcases goLen_cases kube with h5 | h5 <;>
        refine ⟨?_, fun b => ?_, fun b x => ?_⟩ <;>
        first
        | (simp [h4, h5]; done)
        | (cases b <;>
            simp [GlobalHookConfig.declares, GlobalHookConfig.orderValue,
              mapGet, mapSet, h4, h5])

theorem except_unit_error_iff (r : Except HookError Unit) :
    (∃ e, r = .error e) ↔ r ≠ .ok () := by
  cases r <;> simp

theorem Json.isOrder_iff (v : Json) : v.isOrder = true ↔ ¬ v.isBadOrder := by
  rcases Json.order_cases v with rfl | ⟨x, rfl⟩ | ⟨h1, h2⟩ <;>
  simp [Json.isOrder, Json.isBadOrder, Json.isNumber_null, Json.isNumber_num, *]

theorem buildModuleHook_ok_iff (name path : String) (config : ModuleHookConfig)
    (module : Module) :
    (buildModuleHook name path config module).2.2 = .ok () ↔
      config.BeforeHelm.isOrder = true ∧ config.AfterHelm.isOrder = true ∧
        config.AfterDeleteHelm.isOrder = true ∧ config.OnStartup.isOrder = true := by
  obtain ⟨⟨os, sch, kube⟩, bh, ah, adh⟩ := config
  rcases Json.order_cases bh with rfl | ⟨x1, rfl⟩ | ⟨h1, h1'⟩ <;>
  rcases Json.order_cases ah with rfl | ⟨x2, rfl⟩ | ⟨h2, h2'⟩ <;>
  rcases Json.order_cases adh with rfl | ⟨x3, rfl⟩ | ⟨h3, h3'⟩ <;>
  rcases Json.order_cases os with rfl | ⟨x4, rfl⟩ | ⟨h4, h4'⟩ <;>
  simp [buildModuleHook, orderBinding_null, orderBinding_num, orderBinding_other, Json.isOrder,
    Json.isNumber_null, Json.isNumber_num, *]

theorem registerModuleHook_error_eq (GetModule : String → Except HookError Module)
    (mm : MainModuleManager) (moduleName name path : String) (config : ModuleHookConfig)
    (module : Module) (h : GetModule moduleName = .ok module) :
    (registerModuleHook GetModule mm moduleName name path config).2 =
      (buildModuleHook name path config module).2.2 := by
  unfold registerModuleHook
  rw [h]

theorem registerGlobalHooks_order_append (mm : MainModuleManager) (calls : List GlobalHookCall)
    (b : BindingType) :
    (registerGlobalHooks mm calls).globalHooksOrder b =
      mm.globalHooksOrder b ++
        (calls.filter (fun c => c.config.reaches b)).map GlobalHookCall.hook := by
  induction calls generalizing mm with
  | nil => simp [registerGlobalHooks]
  | cons call calls ih =>
    rw [registerGlobalHooks, ih, registerGlobalHook_order]
    by_cases hb : call.config.reaches b = true
    · have hmem := (mem_appended_iff call.name call.path call.config b).mpr hb
      simp [hmem, hb, GlobalHookCall.hook]
    · have hmem : b ∉ (buildGlobalHook call.name call.path call.config).2.1 :=
        fun hm => hb ((mem_appended_iff call.name call.path call.config b).mp hm)
      simp [hmem, hb]

theorem reaches_iff_declares_of_ok (config : GlobalHookConfig)
    (o1 : config.BeforeAll.isOrder = true) (o2 : config.AfterAll.isOrder = true)
    (o3 : config.OnStartup.isOrder = true) (b : BindingType) :
    config.reaches b = true ↔ config.declares b := by
  obtain ⟨⟨os, sch, kube⟩, ba, aa⟩ := config
  simp only at o1 o2 o3
  rcases Json.order_cases ba with rfl | ⟨x1, rfl⟩ | ⟨h1, h1'⟩
  rotate_left 2
  · simp [Json.isOrder, h1, h1'] at o1
  all_goals
    rcases Json.order_cases aa with rfl | ⟨x2, rfl⟩ | ⟨h2, h2'⟩
    rotate_left 2
    · simp [Json.isOrder, h2, h2'] at o2
    all_goals
      rcases Json.order_cases os with rfl | ⟨x3, rfl⟩ | ⟨h3, h3'⟩
      rotate_left 2
      · simp [Json.isOrder, h3, h3'] at o3
      all_goals
        cases b <;>
        simp [GlobalHookConfig.reaches, GlobalHookConfig.declares, Json.isOrder,
          Json.isNumber_null, Json.isNumber_num]

/-! ### Facts about a hook run -/

theorem validate_error_of_hasReplace (patch : ValuesPatch) (key : String)
    (h : patch.hasReplace) : ∃ e, validateHookValuesPatch patch key = .error e := by
  cases hv : validateHookValuesPatch patch key with
  | error e => exact ⟨e, rfl⟩
  | ok u =>
    cases u
    obtain ⟨op, hop, hr⟩ := h
    exact absurd hr (((validateOperations_ok_iff key patch.Operations).mp hv).1 op hop)

theorem handle_error_of_hasReplace (c : Collaborators) (values : Values) (patch : ValuesPatch)
    (h : patch.hasReplace) : ∃ e, handleGlobalValuesPatch c values patch = .error e := by
  obtain ⟨e, he⟩ := validate_error_of_hasReplace patch "global" h
  exact ⟨.mergeGlobalValuesFailed e, by simp [handleGlobalValuesPatch, he]⟩

theorem handle_ok_apply (c : Collaborators) (values : Values) (patch : ValuesPatch)
    (res : globalValuesMergeResult) (h : handleGlobalValuesPatch c values patch = .ok res) :
    res.ValuesPatch = patch ∧
      ∃ newValuesRaw, c.ApplyValuesPatch values patch = .ok (newValuesRaw, res.ValuesChanged) := by
  unfold handleGlobalValuesPatch at h
  simp only at h
  split at h
  · cases h
  · split at h
    · cases h
    · rename_i newValuesRaw valuesChanged happly
      split at h
      · cases h; exact ⟨rfl, newValuesRaw, happly⟩
      · cases h
      · cases h; exact ⟨rfl, newValuesRaw, happly⟩

theorem applyPatches_append (c : Collaborators) (log : List ValuesPatch) (patch : ValuesPatch)
    (start res res' : Values) (changed : Bool)
    (h1 : applyPatches c start log = .ok res)
    (h2 : c.ApplyValuesPatch res patch = .ok (res', changed)) :
    applyPatches c start (log ++ [patch]) = .ok res' := by
  induction log generalizing start with
  | nil =>
    simp only [applyPatches] at h1
    cases h1
    simp [applyPatches, h2]
  | cons first rest ih =>
    simp only [List.cons_append, applyPatches] at h1 ⊢
    split at h1
    · cases h1
    · exact ih _ h1

/-- The ways the config patch block ends. -/
theorem runConfig_cases (h : GlobalHook) (c : Collaborators) (mm : MainModuleManager)
    (cp : Option ValuesPatch) :
    (h.runConfigValuesPatch c mm cp = ⟨mm, [], .nil⟩ ∧
      ∀ p, cp = some p →
        ∃ res, handleGlobalValuesPatch c (GlobalHook.configValues c mm) p = .ok res ∧
          res.ValuesChanged = false) ∨
    (∃ p err, cp = some p ∧
      handleGlobalValuesPatch c (GlobalHook.configValues c mm) p = .error err ∧
      h.runConfigValuesPatch c mm cp =
        ⟨mm, [], .error (.kubeConfigGlobalValuesUpdate h.Name err)⟩) ∨
    (∃ p res err, cp = some p ∧
      handleGlobalValuesPatch c (GlobalHook.configValues c mm) p = .ok res ∧
      res.ValuesChanged = true ∧ c.SetKubeGlobalValues res.Values = .error err ∧
      h.runConfigValuesPatch c mm cp =
        ⟨mm, [res.Values], .error (.setKubeConfigFailed h.Name err)⟩) ∨
    (∃ p res, cp = some p ∧
      handleGlobalValuesPatch c (GlobalHook.configValues c mm) p = .ok res ∧
      res.ValuesChanged = true ∧ c.SetKubeGlobalValues res.Values = .ok () ∧
      h.runConfigValuesPatch c mm cp =
        ⟨{ mm with kubeGlobalConfigValues := res.Values }, [res.Values], .nil⟩) := by
  cases cp with
  | none => left; simp [GlobalHook.runConfigValuesPatch]
  | some p =>
    cases hh : handleGlobalValuesPatch c (GlobalHook.configValues c mm) p with
    | error err =>
      right; left
      refine ⟨p, err, rfl, hh, ?_⟩
      unfold GlobalHook.configValues at hh
      simp [GlobalHook.runConfigValuesPatch, hh]
    | ok res =>
      have hh' := hh
      unfold GlobalHook.configValues at hh'
      cases hch : res.ValuesChanged with
      | false =>
        left
        refine ⟨by simp [GlobalHook.runConfigValuesPatch, hh', hch], ?_⟩
        intro q hq
        cases hq
        exact ⟨res, hh, hch⟩
      | true =>
        right; right
        cases hset : c.SetKubeGlobalValues res.Values with
        | error err =>
          left
          exact ⟨p, res, err, rfl, hh, hch, hset,
            by simp [GlobalHook.runConfigValuesPatch, hh', hch, hset]⟩
        | ok u =>
          right
          cases u
          exact ⟨p, res, rfl, hh, hch, hset,
            by simp [GlobalHook.runConfigValuesPatch, hh', hch, hset]⟩

/-- The ways the memory patch block ends. -/
theorem runMemory_cases (h : GlobalHook) (c : Collaborators) (mm : MainModuleManager)
    (vp : Option ValuesPatch) :
    (h.runMemoryValuesPatch c mm vp = (mm, .nil) ∧
      ∀ p, vp = some p →
        ∃ values res, GlobalHook.values c mm = .ok values ∧
          handleGlobalValuesPatch c values p = .ok res ∧ res.ValuesChanged = false) ∨
    (∃ p err, vp = some p ∧ GlobalHook.values c mm = .error err ∧
      h.runMemoryValuesPatch c mm vp = (mm, .panic err)) ∨
    (∃ p values err, vp = some p ∧ GlobalHook.values c mm = .ok values ∧
      handleGlobalValuesPatch c values p = .error err ∧
      h.runMemoryValuesPatch c mm vp = (mm, .error (.dynamicGlobalValuesUpdate h.Name err))) ∨
    (∃ p values res newValues, vp = some p ∧ GlobalHook.values c mm = .ok values ∧
      handleGlobalValuesPatch c values p = .ok res ∧ res.ValuesChanged = true ∧
      c.ApplyValuesPatch values p = .ok (newValues, true) ∧
      GlobalHook.values c
        { mm with globalDynamicValuesPatches := mm.globalDynamicValuesPatches ++ [p] } =
          .ok newValues ∧
      h.runMemoryValuesPatch c mm vp =
        ({ mm with globalDynamicValuesPatches := mm.globalDynamicValuesPatches ++ [p] },
          .nil)) := by
  cases vp with
  | none => left; simp [GlobalHook.runMemoryValuesPatch]
  | some p =>
    cases hv : GlobalHook.values c mm with
    | error err =>
      right; left
      exact ⟨p, err, rfl, rfl, by simp [GlobalHook.runMemoryValuesPatch, hv]⟩
    | ok values =>
      cases hh : handleGlobalValuesPatch c values p with
      | error err =>
        right; right; left
        exact ⟨p, values, err, rfl, rfl, hh, by simp [GlobalHook.runMemoryValuesPatch, hv, hh]⟩
      | ok res =>
        cases hch : res.ValuesChanged with
        | false =>
          left
          refine ⟨by simp [GlobalHook.runMemoryValuesPatch, hv, hh, hch], ?_⟩
          intro q hq
          cases hq
          exact ⟨values, res, rfl, hh, hch⟩
        | true =>
          right; right; right
          obtain ⟨hpatch, newValues, happly⟩ := handle_ok_apply c values p res hh
          rw [hch] at happly
          have hnew : GlobalHook.values c
              { mm with globalDynamicValuesPatches := mm.globalDynamicValuesPatches ++ [p] } =
                .ok newValues := by
            unfold GlobalHook.values at hv ⊢
            exact applyPatches_append c _ p _ values newValues true hv happly
          refine ⟨p, values, res, newValues, rfl, rfl, hh, hch, happly, hnew, ?_⟩
          simp [GlobalHook.runMemoryValuesPatch, hv, hh, hch, hpatch, AppendValuesPatch, hnew]

theorem run_of_config_nil (h : GlobalHook) (c : Collaborators) (mm mm1 : MainModuleManager)
    (patches : Patches) (calls : List Values)
    (hc : h.runConfigValuesPatch c mm patches.ConfigMapPatch = ⟨mm1, calls, .nil⟩) :
    h.run c mm (.ok patches) =
      ⟨(h.runMemoryValuesPatch c mm1 patches.MemoryValuesPatch).1, calls,
        (h.runMemoryValuesPatch c mm1 patches.MemoryValuesPatch).2⟩ := by
  simp [GlobalHook.run, hc]

theorem run_of_config_error (h : GlobalHook) (c : Collaborators) (mm mm1 : MainModuleManager)
    (patches : Patches) (calls : List Values) (e : HookError)
    (hc : h.runConfigValuesPatch c mm patches.ConfigMapPatch = ⟨mm1, calls, .error e⟩) :
    h.run c mm (.ok patches) = ⟨mm1, calls, .error e⟩ := by
  simp [GlobalHook.run, hc]

theorem spec_unchangedIsInput (persist : Bool) : (specCollaborators persist).UnchangedIsInput := by
  intro values patch res h
  simp only [specCollaborators, specApplyValuesPatch] at h
  split at h
  · cases h
  · simp only [Except.ok.injEq, Prod.mk.injEq, decide_eq_false_iff_not, ne_eq,
      not_not] at h
    rw [← h.1, h.2]
  · cases h

/-! ### Facts about the key check of a values patch -/

theorem handleGlobal_of_apply (c : Collaborators) (cur : Values) (patch : ValuesPatch)
    (newValuesRaw : Values) (changed : Bool)
    (hvalidate : validateHookValuesPatch patch "global" = .ok ())
    (happly : c.ApplyValuesPatch cur patch = .ok (newValuesRaw, changed)) :
    handleGlobalValuesPatch c cur patch =
      match mapGet newValuesRaw "global" with
      | some (.obj globalValues) =>
        .ok ⟨[("global", .obj globalValues)], some globalValues, patch, changed⟩
      | some globalValuesRaw => .error (.expectedMap "global" globalValuesRaw)
      | none => .ok ⟨[("global", .obj [])], none, patch, changed⟩ := by
  simp only [handleGlobalValuesPatch, hvalidate, happly]

theorem handleModule_of_apply (c : Collaborators) (toKey : String → String) (h : ModuleHook)
    (cur : Values) (patch : ValuesPatch) (newValuesRaw : Values) (changed : Bool)
    (hvalidate : validateHookValuesPatch patch (toKey h.Module.Name) = .ok ())
    (happly : c.ApplyValuesPatch cur patch = .ok (newValuesRaw, changed)) :
    handleModuleValuesPatch c toKey h cur patch =
      match mapGet newValuesRaw (toKey h.Module.Name) with
      | some (.obj moduleValues) =>
        .ok ⟨[(toKey h.Module.Name, .obj moduleValues)], some moduleValues,
          toKey h.Module.Name, patch, changed⟩
      | some moduleValuesRaw => .error (.expectedMap (toKey h.Module.Name) moduleValuesRaw)
      | none => .ok ⟨[(toKey h.Module.Name, .obj [])], none, toKey h.Module.Name, patch, changed⟩ := by
  simp only [handleModuleValuesPatch, hvalidate, happly]

/-! ### Facts about the scope key across hook runs -/

theorem mapGet_objSet_self (kvs : List (String × Json)) (k : String) (v : Json) :
    mapGet (objSet kvs k v) k = some v := by
  induction kvs with
  | nil => simp [objSet, mapGet]
  | cons kv rest ih =>
    obtain ⟨k', v'⟩ := kv
    unfold objSet
    by_cases h1 : k' = k
    · simp [h1, mapGet]
    · by_cases h2 : k.data < k'.data
      · simp [h1, h2, mapGet]
      · simp [h1, h2, mapGet, ih]

theorem mapGet_objSet_ne (kvs : List (String × Json)) (k g : String) (v : Json)
    (hne : k ≠ g) : mapGet (objSet kvs k v) g = mapGet kvs g := by
  induction kvs with
  | nil => simp [objSet, mapGet, hne]
  | cons kv rest ih =>
    obtain ⟨k', v'⟩ := kv
    unfold objSet
    by_cases h1 : k' = k
    · subst h1
      simp [mapGet, hne]
    · by_cases h2 : k.data < k'.data
      · simp [h1, h2, mapGet, hne]
      · by_cases h3 : k' = g
        · subst h3
          simp [h1, h2, mapGet]
        · simp [h1, h2, h3, mapGet, ih]

theorem mergeMembers_keeps_mapping (key : String) (later : List (String × Json)) :
    ∀ earlier : List (String × Json), boundToMapping earlier key →
      bindsOnlyMappings later key → boundToMapping (Json.mergeMembers earlier later) key := by
  induction later with
  | nil =>
    intro earlier h _
    simpa [Json.mergeMembers] using h
  | cons kv rest ih =>
    intro earlier hearlier hlater
    obtain ⟨k, v⟩ := kv
    rw [Json.mergeMembers]
    apply ih
    · by_cases hk : k = key
      · subst hk
        obtain ⟨m, hm⟩ := hlater v (List.mem_cons_self _ _)
        obtain ⟨a, ha⟩ := hearlier
        subst hm
        refine ⟨Json.mergeMembers a m, ?_⟩
        rw [mapGet_objSet_self, ha]
        simp [Json.merge]
      · obtain ⟨a, ha⟩ := hearlier
        exact ⟨a, by rw [mapGet_objSet_ne _ _ _ _ hk, ha]⟩
    · intro w hw
      exact hlater w (List.mem_cons_of_mem _ hw)

theorem spec_mergeKeepsGlobal (persist : Bool) : (specCollaborators persist).MergeKeepsGlobal := by
  intro values hvalues
  simp only [specCollaborators, specMergeValues, List.foldl]
  apply mergeMembers_keeps_mapping
  · exact ⟨[], by simp [Json.mergeMembers, objSet, mapGet]⟩
  · exact hvalues

theorem handle_ok_values (c : Collaborators) (cur : Values) (patch : ValuesPatch)
    (res : globalValuesMergeResult) (h : handleGlobalValuesPatch c cur patch = .ok res) :
    (∃ m, res.Values = [("global", Json.obj m)]) ∧
      ∃ newValuesRaw, c.ApplyValuesPatch cur patch = .ok (newValuesRaw, res.ValuesChanged) ∧
        (mapGet newValuesRaw "global" = none ∨ boundToMapping newValuesRaw "global") := by
  unfold handleGlobalValuesPatch at h
  simp only at h
  split at h
  · cases h
  · split at h
    · cases h
    · rename_i newValuesRaw valuesChanged happly
      split at h
      · rename_i m hm
        cases h
        exact ⟨⟨m, rfl⟩, newValuesRaw, happly, Or.inr ⟨m, hm⟩⟩
      · cases h
      · rename_i hnone
        cases h
        exact ⟨⟨[], rfl⟩, newValuesRaw, happly, Or.inl hnone⟩

theorem bindsOnlyMappings_singleton (key : String) (m : List (String × Json)) :
    bindsOnlyMappings [(key, Json.obj m)] key := by
  intro v hv
  simp only [List.mem_singleton, Prod.mk.injEq, true_and] at hv
  exact ⟨m, hv⟩

/-- One invocation keeps `global` bound to mappings only in the kube config
values. -/
theorem run_keeps_kube_mappings (h : GlobalHook) (c : Collaborators) (mm : MainModuleManager)
    (executorRun : Except HookError Patches)
    (hinv : bindsOnlyMappings mm.kubeGlobalConfigValues "global") :
    bindsOnlyMappings (h.run c mm executorRun).mm.kubeGlobalConfigValues "global" := by
  cases executorRun with
  | error err => simpa [GlobalHook.run] using hinv
  | ok patches =>
    have memory : ∀ (mm1 : MainModuleManager),
        (h.runMemoryValuesPatch c mm1 patches.MemoryValuesPatch).1.kubeGlobalConfigValues =
          mm1.kubeGlobalConfigValues := by
      intro mm1
      rcases runMemory_cases h c mm1 patches.MemoryValuesPatch with
        ⟨hm, _⟩ | ⟨p, err, _, _, hm⟩ | ⟨p, values, err, _, _, _, hm⟩ |
        ⟨p, values, res, nv, _, _, _, _, _, _, hm⟩ <;> rw [hm]
    rcases runConfig_cases h c mm patches.ConfigMapPatch with
      ⟨hc, _⟩ | ⟨p, err, _, _, hc⟩ | ⟨p, res, err, _, _, _, _, hc⟩ |
      ⟨p, res, _, hh, _, _, hc⟩
    · rw [run_of_config_nil h c mm mm patches [] hc]
      simp only [memory]
      exact hinv
    · rw [run_of_config_error h c mm mm patches _ _ hc]
      exact hinv
    · rw [run_of_config_error h c mm mm patches _ _ hc]
      exact hinv
    · rw [run_of_config_nil h c mm _ patches _ hc]
      simp only [memory]
      obtain ⟨⟨m, hm⟩, _⟩ := handle_ok_values c _ p res hh
      rw [hm]
      exact bindsOnlyMappings_singleton "global" m

theorem runAll_keeps_kube_mappings (c : Collaborators) (invs : List Invocation) :
    ∀ mm : MainModuleManager, bindsOnlyMappings mm.kubeGlobalConfigValues "global" →
      bindsOnlyMappings (runAll c mm invs).kubeGlobalConfigValues "global" := by
  induction invs with
  | nil => intro mm h; simpa [runAll] using h
  | cons inv rest ih =>
    intro mm h
    rw [runAll]
    exact ih _ (run_keeps_kube_mappings inv.hook c mm inv.executorRun h)

theorem runAll_append (c : Collaborators) (before : List Invocation) (inv : Invocation) :
    ∀ mm : MainModuleManager,
      runAll c mm (before ++ [inv]) =
        (inv.hook.run c (runAll c mm before) inv.executorRun).mm := by
  induction before with
  | nil => intro mm; simp [runAll]
  | cons first rest ih =>
    intro mm
    simp only [List.cons_append, runAll]
    exact ih _

theorem allReturnNil_append (c : Collaborators) (before : List Invocation) (inv : Invocation) :
    ∀ mm : MainModuleManager, allReturnNil c mm (before ++ [inv]) →
      (inv.hook.run c (runAll c mm before) inv.executorRun).outcome = .nil := by
  induction before with
  | nil =>
    intro mm h
    simp only [List.nil_append, allReturnNil] at h
    exact h.1
  | cons first rest ih =>
    intro mm h
    simp only [List.cons_append, allReturnNil] at h
    simp only [runAll]
    exact ih _ h.2

/-- After a run that returns nil with a memory patch, `values()` returns a tree
in which `global` is absent or bound to a mapping. -/
theorem values_after_memory_patch (h : GlobalHook) (c : Collaborators) (mm : MainModuleManager)
    (patches : Patches) (p : ValuesPatch) (hcontract : c.UnchangedIsInput)
    (hp : patches.MemoryValuesPatch = some p)
    (hnil : (h.run c mm (.ok patches)).outcome = .nil) :
    ∃ v, GlobalHook.values c (h.run c mm (.ok patches)).mm = .ok v ∧
      (mapGet v "global" = none ∨ boundToMapping v "global") := by
  have memory : ∀ (mm1 : MainModuleManager) (calls : List Values),
      h.runConfigValuesPatch c mm patches.ConfigMapPatch = ⟨mm1, calls, .nil⟩ →
      ∃ v, GlobalHook.values c (h.run c mm (.ok patches)).mm = .ok v ∧
        (mapGet v "global" = none ∨ boundToMapping v "global") := by
    intro mm1 calls hc
    have hrun := run_of_config_nil h c mm mm1 patches calls hc
    rw [hrun] at hnil ⊢
    rcases runMemory_cases h c mm1 patches.MemoryValuesPatch with
      ⟨hm, hun⟩ | ⟨q, err, _, _, hm⟩ | ⟨q, values, err, _, _, _, hm⟩ |
      ⟨q, values, res, nv, hq, hv, hh, hch, happly, hnew, hm⟩
    · obtain ⟨values, res, hv, hh, hch⟩ := hun p hp
      obtain ⟨_, newValues, happly, hglobal⟩ := handle_ok_values c values p res hh
      rw [hch] at happly
      have heq := hcontract values p newValues happly
      subst heq
      rw [hm]
      exact ⟨newValues, hv, hglobal⟩
    · rw [hm] at hnil; cases hnil
    · rw [hm] at hnil; cases hnil
    · obtain ⟨_, newValues, happly', hglobal⟩ := handle_ok_values c values q res hh
      rw [hch, happly] at happly'
      cases happly'
      rw [hm]
      exact ⟨nv, hnew, hglobal⟩
  rcases runConfig_cases h c mm patches.ConfigMapPatch with
    ⟨hc, _⟩ | ⟨q, err, _, _, hc⟩ | ⟨q, res, err, _, _, _, _, hc⟩ | ⟨q, res, _, _, _, _, hc⟩
  · exact memory mm [] hc
  · rw [run_of_config_error h c mm mm patches _ _ hc] at hnil; cases hnil
  · rw [run_of_config_error h c mm mm patches _ _ hc] at hnil; cases hnil
  · exact memory _ _ hc

/-! ### Facts about the hook index of a module -/

theorem removeModuleHooks_add (mm : MainModuleManager) (moduleName : String)
    (b : BindingType) (hook : ModuleHook) :
    removeModuleHooks (addModulesHooksOrderByName mm moduleName b hook) moduleName =
      removeModuleHooks mm moduleName := by
  simp only [removeModuleHooks, addModulesHooksOrderByName]
  congr 1
  funext n
  by_cases hn : n = moduleName <;> simp [hn]

theorem removeModuleHooks_foldl (moduleName : String) (hook : ModuleHook)
    (appended : List BindingType) :
    ∀ mm : MainModuleManager,
      removeModuleHooks
          (appended.foldl (fun m b => addModulesHooksOrderByName m moduleName b hook) mm)
          moduleName =
        removeModuleHooks mm moduleName := by
  induction appended with
  | nil => intro mm; rfl
  | cons b rest ih =>
    intro mm
    rw [List.foldl_cons, ih, removeModuleHooks_add]

theorem removeModuleHooks_register (GetModule : String → Except HookError Module)
    (mm : MainModuleManager) (moduleName name path : String) (config : ModuleHookConfig) :
    removeModuleHooks (registerModuleHook GetModule mm moduleName name path config).1
        moduleName =
      removeModuleHooks mm moduleName := by
  unfold registerModuleHook
  split
  · rfl
  · simp only
    exact removeModuleHooks_foldl moduleName _ _ mm

theorem removeModuleHooks_addModuleHook (sys : System) (module : Module)
    (mm : MainModuleManager) (hookPath output : String) :
    removeModuleHooks (addModuleHook sys module mm hookPath output).1 module.Name =
      removeModuleHooks mm module.Name := by
  unfold addModuleHook
  split
  · rfl
  · split
    · rfl
    · simp only
      split
      · rename_i heq
        have hfst := congrArg Prod.fst heq
        simp only at hfst
        rw [← hfst]
        exact removeModuleHooks_register sys.GetModule mm module.Name _ hookPath _
      · rename_i heq
        have hfst := congrArg Prod.fst heq
        simp only at hfst
        rw [← hfst]
        exact removeModuleHooks_register sys.GetModule mm module.Name _ hookPath _

theorem removeModuleHooks_initHooksLoop (sys : System) (module : Module)
    (paths : List String) :
    ∀ mm : MainModuleManager,
      removeModuleHooks (initHooksLoop sys (addModuleHook sys module) mm paths).1
          module.Name =
        removeModuleHooks mm module.Name := by
  induction paths with
  | nil => intro mm; rfl
  | cons hookPath rest ih =>
    intro mm
    rw [initHooksLoop]
    split
    · rfl
    · rename_i output _
      split
      · rename_i heq
        have := removeModuleHooks_addModuleHook sys module mm hookPath output
        rw [heq] at this
        exact this
      · rename_i heq
        have := removeModuleHooks_addModuleHook sys module mm hookPath output
        rw [heq] at this
        rw [ih]
        exact this

theorem removeModuleHooks_initHooks (sys : System) (module : Module) (hooksDir : String)
    (mm : MainModuleManager) :
    removeModuleHooks (initHooks sys hooksDir (addModuleHook sys module) mm).1 module.Name =
      removeModuleHooks mm module.Name := by
  unfold initHooks
  split
  · rfl
  · split
    · rfl
    · exact removeModuleHooks_initHooksLoop sys module _ mm

theorem removeModuleHooks_of_absent (mm : MainModuleManager) (moduleName : String)
    (h : mm.modulesHooksOrderByName moduleName = none) :
    removeModuleHooks mm moduleName = mm := by
  cases mm
  simp only [removeModuleHooks, MainModuleManager.mk.injEq, true_and, and_true]
  funext n
  by_cases hn : n = moduleName
  · subst hn
    simpa using h.symm
  · simp [hn]

/-! ### Facts about `prepareHookConfig` -/

theorem prepareOnKubernetesEventConfig_spec (entry : OnKubernetesEventConfig) :
    (prepareOnKubernetesEventConfig entry).Rest = entry.Rest ∧
    (entry.EventTypes = none →
      (prepareOnKubernetesEventConfig entry).EventTypes =
        some [.KubernetesEventOnAdd, .KubernetesEventOnUpdate, .KubernetesEventOnDelete]) ∧
    (∀ types, entry.EventTypes = some types →
      (prepareOnKubernetesEventConfig entry).EventTypes = some types) ∧
    (entry.NamespaceSelector = none →
      (prepareOnKubernetesEventConfig entry).NamespaceSelector = some ⟨none, true⟩) ∧
    (∀ selector, entry.NamespaceSelector = some selector →
      (prepareOnKubernetesEventConfig entry).NamespaceSelector = some selector) := by
  obtain ⟨types, selector, rest⟩ := entry
  cases types <;> cases selector <;> simp [prepareOnKubernetesEventConfig]

theorem prepareOnKubernetesEventConfig_idem (entry : OnKubernetesEventConfig) :
    prepareOnKubernetesEventConfig (prepareOnKubernetesEventConfig entry) =
      prepareOnKubernetesEventConfig entry := by
  obtain ⟨types, selector, rest⟩ := entry
  cases types <;> cases selector <;> rfl

/-! ## The claims -/

/-- C1 (amended): `validateHookValuesPatch(patch, key)` returns no error if and
only if no operation of the patch has op "replace" and every operation's path
either contains no slash (the empty root path is such a path) or has its first
segment, the text between the first slash and the next one, equal to `key`. -/
theorem validateHookValuesPatch_ok_iff (patch : ValuesPatch) (key : String) :
    validateHookValuesPatch patch key = .ok () ↔
      ¬ patch.hasReplace ∧
      ∀ op ∈ patch.Operations,
        '/' ∉ op.Path.data ∨ firstPathSegment op.Path = some key := by
  unfold validateHookValuesPatch ValuesPatch.hasReplace
  rw [validateOperations_ok_iff]
  simp only [firstPathSegment_none_iff]
  constructor
  · rintro ⟨h1, h2⟩
    exact ⟨fun ⟨op, hop, hr⟩ => h1 op hop hr, h2⟩
  · rintro ⟨h1, h2⟩
    exact ⟨fun op hop hr => h1 ⟨op, hop, hr⟩, h2⟩

/-- C1 (counterexample): the patch with the single operation `add` at path
"foo" has no "replace" operation and `validateHookValuesPatch` accepts it for
the key "global", although the path "foo" is not the empty root path, has no
first segment equal to "global", and none of its slash-separated pieces is
"global". -/
theorem validateHookValuesPatch_accepts_path_without_slash :
    ¬ ValuesPatch.hasReplace ⟨[⟨"add", "foo", .num 1⟩]⟩ ∧
    validateHookValuesPatch ⟨[⟨"add", "foo", .num 1⟩]⟩ "global" = .ok () ∧
    ("foo" : String) ≠ "" ∧
    firstPathSegment "foo" ≠ some "global" ∧
    ∀ piece ∈ strings.Split "foo" '/', piece ≠ "global" := by
  refine ⟨by decide, ?_, by decide, by decide, by decide⟩
  simp [validateHookValuesPatch, validateOperations, strings.Split, splitChars]

/-- C2 (amended): when the executor returns a config patch or a memory patch
with a "replace" operation, `run` does not return nil and
`globalDynamicValuesPatches` is what it was before.  It returns an error,
unless `values()` panics because the stored log does not replay, which can
only happen when no "replace" is in the config patch.  A "replace" in the
config patch leaves the whole manager unchanged without a call of
`SetKubeGlobalValues`.  Otherwise `kubeGlobalConfigValues` is unchanged or holds
the values of the config patch of this invocation, which validated, changed the
values and was persisted. -/
theorem run_replace_rejected (h : GlobalHook) (c : Collaborators) (mm : MainModuleManager)
    (patches : Patches)
    (hrep : (∃ p, patches.ConfigMapPatch = some p ∧ p.hasReplace) ∨
      (∃ p, patches.MemoryValuesPatch = some p ∧ p.hasReplace)) :
    (h.run c mm (.ok patches)).outcome ≠ .nil ∧
    (h.run c mm (.ok patches)).mm.globalDynamicValuesPatches =
      mm.globalDynamicValuesPatches ∧
    ((∃ e, (h.run c mm (.ok patches)).outcome = .error e) ∨
      (∃ e, (h.run c mm (.ok patches)).outcome = .panic e ∧
        GlobalHook.values c (h.run c mm (.ok patches)).mm = .error e ∧
        ∀ p, patches.ConfigMapPatch = some p → ¬ p.hasReplace)) ∧
    ((∃ p, patches.ConfigMapPatch = some p ∧ p.hasReplace) →
      (h.run c mm (.ok patches)).mm = mm ∧
      (h.run c mm (.ok patches)).setKubeGlobalValuesCalls = [] ∧
      ∃ e, (h.run c mm (.ok patches)).outcome = .error e) ∧
    ((h.run c mm (.ok patches)).mm.kubeGlobalConfigValues = mm.kubeGlobalConfigValues ∨
      ∃ p res, patches.ConfigMapPatch = some p ∧
        handleGlobalValuesPatch c (GlobalHook.configValues c mm) p = .ok res ∧
        res.ValuesChanged = true ∧ c.SetKubeGlobalValues res.Values = .ok () ∧
        (h.run c mm (.ok patches)).mm.kubeGlobalConfigValues = res.Values) := by
  have noReplaceOfOk : ∀ (values : Values) (p : ValuesPatch) (res : globalValuesMergeResult),
      handleGlobalValuesPatch c values p = .ok res → ¬ p.hasReplace := by
    intro values p res hok hr
    obtain ⟨e, he⟩ := handle_error_of_hasReplace c values p hr
    rw [he] at hok
    cases hok
  -- what the memory block does from the state `mm1` the config block left
  have memory : ∀ (mm1 : MainModuleManager) (calls : List Values),
      h.runConfigValuesPatch c mm patches.ConfigMapPatch = ⟨mm1, calls, .nil⟩ →
      (∀ p, patches.ConfigMapPatch = some p → ¬ p.hasReplace) →
      (h.run c mm (.ok patches)).outcome ≠ .nil ∧
      (h.run c mm (.ok patches)).mm = mm1 ∧
      ((∃ e, (h.run c mm (.ok patches)).outcome = .error e) ∨
        (∃ e, (h.run c mm (.ok patches)).outcome = .panic e ∧
          GlobalHook.values c (h.run c mm (.ok patches)).mm = .error e ∧
          ∀ p, patches.ConfigMapPatch = some p → ¬ p.hasReplace)) := by
    intro mm1 calls hc hno
    have hmem : ∃ p, patches.MemoryValuesPatch = some p ∧ p.hasReplace := by
      rcases hrep with ⟨p, hp, hr⟩ | hm
      · exact absurd hr (hno p hp)
      · exact hm
    obtain ⟨q, hq, hqr⟩ := hmem
    rw [run_of_config_nil h c mm mm1 patches calls hc]
    rcases runMemory_cases h c mm1 patches.MemoryValuesPatch with
      ⟨_, hun⟩ | ⟨p, err, _, hv, hm⟩ | ⟨p, values, err, _, _, _, hm⟩ |
      ⟨p, values, res, nv, hp, _, hh, _, _, _, _⟩
    · obtain ⟨values, res, _, hh, _⟩ := hun q hq
      exact absurd hqr (noReplaceOfOk _ _ _ hh)
    · rw [hm]
      exact ⟨by simp, rfl, Or.inr ⟨err, rfl, hv, hno⟩⟩
    · rw [hm]
      exact ⟨by simp, rfl, Or.inl ⟨_, rfl⟩⟩
    · rw [hq] at hp
      cases hp
      exact absurd hqr (noReplaceOfOk _ _ _ hh)
  rcases runConfig_cases h c mm patches.ConfigMapPatch with
    ⟨hc, hun⟩ | ⟨p, err, hp, hh, hc⟩ | ⟨p, res, err, hp, hh, _, _, hc⟩ |
    ⟨p, res, hp, hh, hch, hset, hc⟩
  · have hno : ∀ p, patches.ConfigMapPatch = some p → ¬ p.hasReplace := by
      intro p hp
      obtain ⟨res, hh, _⟩ := hun p hp
      exact noReplaceOfOk _ _ _ hh
    obtain ⟨h1, h2, h3⟩ := memory mm [] hc hno
    refine ⟨h1, by rw [h2], h3, ?_, Or.inl (by rw [h2])⟩
    rintro ⟨p, hp, hr⟩
    exact absurd hr (hno p hp)
  · have hrun := run_of_config_error h c mm mm patches [] _ hc
    rw [hrun]
    exact ⟨by simp, rfl, Or.inl ⟨_, rfl⟩, fun _ => ⟨rfl, rfl, _, rfl⟩, Or.inl rfl⟩
  · have hno : ¬ p.hasReplace := noReplaceOfOk _ _ _ hh
    have hrun := run_of_config_error h c mm mm patches _ _ hc
    rw [hrun]
    refine ⟨by simp, rfl, Or.inl ⟨_, rfl⟩, ?_, Or.inl rfl⟩
    rintro ⟨q, hq, hr⟩
    rw [hp] at hq
    cases hq
    exact absurd hr hno
  · have hno : ∀ q, patches.ConfigMapPatch = some q → ¬ q.hasReplace := by
      intro q hq
      rw [hp] at hq
      cases hq
      exact noReplaceOfOk _ _ _ hh
    obtain ⟨h1, h2, h3⟩ := memory _ _ hc hno
    refine ⟨h1, by rw [h2], h3, ?_, Or.inr ⟨p, res, hp, hh, hch, hset, by rw [h2]⟩⟩
    rintro ⟨q, hq, hr⟩
    exact absurd hr (hno q hq)

/-- C2 (witness): a run whose memory patch is a "replace" and that has no config
patch. -/
theorem run_replace_rejected_witness :
    ((∃ p, (⟨none, some replaceXPatch⟩ : Patches).ConfigMapPatch = some p ∧ p.hasReplace) ∨
      (∃ p, (⟨none, some replaceXPatch⟩ : Patches).MemoryValuesPatch = some p ∧
        p.hasReplace)) ∧
    (sampleHook.run (specCollaborators true) managerWithX
        (.ok ⟨none, some replaceXPatch⟩)).outcome ≠ .nil ∧
    (sampleHook.run (specCollaborators true) managerWithX
        (.ok ⟨none, some replaceXPatch⟩)).mm.globalDynamicValuesPatches =
      managerWithX.globalDynamicValuesPatches :=
  have hrep : (∃ p, (⟨none, some replaceXPatch⟩ : Patches).ConfigMapPatch = some p ∧
        p.hasReplace) ∨
      (∃ p, (⟨none, some replaceXPatch⟩ : Patches).MemoryValuesPatch = some p ∧
        p.hasReplace) :=
    Or.inr ⟨replaceXPatch, rfl, by decide⟩
  have hrun := run_replace_rejected sampleHook (specCollaborators true) managerWithX
    ⟨none, some replaceXPatch⟩ hrep
  ⟨hrep, hrun.1, hrun.2.1⟩

/-- C2 (counterexample): the executor returns the config patch
`add /global/x 1` and the memory patch `replace /global/x 2`; the kube config
manager accepts the write.  `run` returns an error and
`kubeGlobalConfigValues` is no longer what it was before the invocation. -/
theorem run_replace_in_memory_patch_keeps_config_write :
    replaceXPatch.hasReplace ∧
    (sampleHook.run (specCollaborators true) emptyManager
        (.ok ⟨some addXPatch, some replaceXPatch⟩)).outcome =
      .error (.dynamicGlobalValuesUpdate "hook" (.mergeGlobalValuesFailed
        (.unsupportedOperation ⟨"replace", "/global/x", .num 2⟩))) ∧
    emptyManager.kubeGlobalConfigValues = [] ∧
    (sampleHook.run (specCollaborators true) emptyManager
        (.ok ⟨some addXPatch, some replaceXPatch⟩)).mm.kubeGlobalConfigValues =
      [("global", .obj [("x", .num 1)])] := by
  refine ⟨by decide, by decide, rfl, by decide⟩

/-- C3 (amended): a `run` that does not return nil (it returns an error, or
panics in `values()`) leaves `globalDynamicValuesPatches` as it was.  When the
error comes from the executor or from the config patch (validation,
application, persistence), the whole manager is unchanged and no
`SetKubeGlobalValues` write has taken effect.  Otherwise the memory patch block
failed after the config patch of the same invocation changed the values and
was persisted: then `kubeGlobalConfigValues` holds the new config values and
that one write has taken effect. -/
theorem run_failure_state (h : GlobalHook) (c : Collaborators) (mm : MainModuleManager)
    (executorRun : Except HookError Patches)
    (hfail : (h.run c mm executorRun).outcome ≠ .nil) :
    (h.run c mm executorRun).mm.globalDynamicValuesPatches =
      mm.globalDynamicValuesPatches ∧
    (((h.run c mm executorRun).mm = mm ∧
        ∀ v ∈ (h.run c mm executorRun).setKubeGlobalValuesCalls,
          c.SetKubeGlobalValues v ≠ .ok ()) ∨
      (∃ patches p res, executorRun = .ok patches ∧ patches.ConfigMapPatch = some p ∧
        handleGlobalValuesPatch c (GlobalHook.configValues c mm) p = .ok res ∧
        res.ValuesChanged = true ∧ c.SetKubeGlobalValues res.Values = .ok () ∧
        (h.run c mm executorRun).mm = { mm with kubeGlobalConfigValues := res.Values } ∧
        (h.run c mm executorRun).setKubeGlobalValuesCalls = [res.Values] ∧
        ((∃ cause, (h.run c mm executorRun).outcome =
            .error (.dynamicGlobalValuesUpdate h.Name cause)) ∨
          ∃ e, (h.run c mm executorRun).outcome = .panic e))) ∧
    (∀ e, (h.run c mm executorRun).outcome = .error e →
      (∀ cause, e ≠ .dynamicGlobalValuesUpdate h.Name cause) →
      (h.run c mm executorRun).mm = mm ∧
        ∀ v ∈ (h.run c mm executorRun).setKubeGlobalValuesCalls,
          c.SetKubeGlobalValues v ≠ .ok ()) := by
  cases executorRun with
  | error err => simp [GlobalHook.run]
  | ok patches =>
    -- the memory block from the state `mm1` the config block left
    have memory : ∀ (mm1 : MainModuleManager) (calls : List Values),
        h.runConfigValuesPatch c mm patches.ConfigMapPatch = ⟨mm1, calls, .nil⟩ →
        (h.run c mm (.ok patches)).mm = mm1 ∧
        (h.run c mm (.ok patches)).setKubeGlobalValuesCalls = calls ∧
        ((∃ cause, (h.run c mm (.ok patches)).outcome =
            .error (.dynamicGlobalValuesUpdate h.Name cause)) ∨
          ∃ e, (h.run c mm (.ok patches)).outcome = .panic e) := by
      intro mm1 calls hc
      have hrun := run_of_config_nil h c mm mm1 patches calls hc
      rw [hrun] at hfail ⊢
      rcases runMemory_cases h c mm1 patches.MemoryValuesPatch with
        ⟨hm, _⟩ | ⟨p, err, _, _, hm⟩ | ⟨p, values, err, _, _, _, hm⟩ |
        ⟨p, values, res, nv, _, _, _, _, _, _, hm⟩
      · rw [hm] at hfail; exact absurd rfl hfail
      · rw [hm]; exact ⟨rfl, rfl, Or.inr ⟨_, rfl⟩⟩
      · rw [hm]; exact ⟨rfl, rfl, Or.inl ⟨_, rfl⟩⟩
      · rw [hm] at hfail; exact absurd rfl hfail
    rcases runConfig_cases h c mm patches.ConfigMapPatch with
      ⟨hc, _⟩ | ⟨p, err, hp, hh, hc⟩ | ⟨p, res, err, hp, hh, _, hset, hc⟩ |
      ⟨p, res, hp, hh, hch, hset, hc⟩
    · obtain ⟨h1, h2, _⟩ := memory mm [] hc
      rw [h1, h2]
      exact ⟨rfl, Or.inl ⟨rfl, by simp⟩, fun _ _ _ => ⟨rfl, by simp⟩⟩
    · rw [run_of_config_error h c mm mm patches [] _ hc]
      exact ⟨rfl, Or.inl ⟨rfl, by simp⟩, fun _ _ _ => ⟨rfl, by simp⟩⟩
    · rw [run_of_config_error h c mm mm patches _ _ hc]
      have hno : ∀ v ∈ [res.Values], c.SetKubeGlobalValues v ≠ .ok () := by
        intro v hv
        simp only [List.mem_singleton] at hv
        subst hv
        rw [hset]
        simp
      exact ⟨rfl, Or.inl ⟨rfl, hno⟩, fun _ _ _ => ⟨rfl, hno⟩⟩
    · obtain ⟨h1, h2, h3⟩ := memory _ _ hc
      refine ⟨by rw [h1], Or.inr ⟨patches, p, res, rfl, hp, hh, hch, hset, h1, h2, h3⟩, ?_⟩
      intro e he hne
      rcases h3 with ⟨cause, hcause⟩ | ⟨e', he'⟩
      · rw [hcause] at he
        cases he
        exact absurd rfl (hne cause)
      · rw [he'] at he
        cases he

/-- C3 (witness): a run whose executor failed. -/
theorem run_failure_state_witness :
    (sampleHook.run (specCollaborators true) managerWithX
        (.error (.external "exit status 1"))).outcome ≠ .nil ∧
    (sampleHook.run (specCollaborators true) managerWithX
        (.error (.external "exit status 1"))).mm.globalDynamicValuesPatches =
      managerWithX.globalDynamicValuesPatches :=
  ⟨by decide, (run_failure_state sampleHook (specCollaborators true) managerWithX
    (.error (.external "exit status 1")) (by decide)).1⟩

/-- C3 (counterexample): the executor returns the config patch
`add /global/x 1`, which the kube config manager persists, and a memory patch
on the path `/other/x`, outside the scope of a global hook.  `run` returns an
error, a `SetKubeGlobalValues` write has taken effect and
`kubeGlobalConfigValues` differs from its value before the invocation. -/
theorem run_error_after_config_write :
    (sampleHook.run (specCollaborators true) emptyManager
        (.ok ⟨some addXPatch, some otherScopePatch⟩)).outcome =
      .error (.dynamicGlobalValuesUpdate "hook" (.mergeGlobalValuesFailed
        (.unacceptablePath "other" "global" ⟨"add", "/other/x", .num 1⟩))) ∧
    (sampleHook.run (specCollaborators true) emptyManager
        (.ok ⟨some addXPatch, some otherScopePatch⟩)).setKubeGlobalValuesCalls =
      [[("global", .obj [("x", .num 1)])]] ∧
    (specCollaborators true).SetKubeGlobalValues [("global", .obj [("x", .num 1)])] =
      .ok () ∧
    (sampleHook.run (specCollaborators true) emptyManager
        (.ok ⟨some addXPatch, some otherScopePatch⟩)).mm.kubeGlobalConfigValues ≠
      emptyManager.kubeGlobalConfigValues := by
  refine ⟨by decide, by decide, rfl, by decide⟩

/-- C4: when the config patch validates and applies with `changed=true` and
`SetKubeGlobalValues` returns an error, `run` returns an error and the manager,
`kubeGlobalConfigValues` and the dynamic patch log included, is left exactly as
before the call. -/
theorem run_persistence_failure (h : GlobalHook) (c : Collaborators) (mm : MainModuleManager)
    (patches : Patches) (p : ValuesPatch) (res : globalValuesMergeResult) (err : HookError)
    (hp : patches.ConfigMapPatch = some p)
    (hres : handleGlobalValuesPatch c (GlobalHook.configValues c mm) p = .ok res)
    (hchanged : res.ValuesChanged = true)
    (hset : c.SetKubeGlobalValues res.Values = .error err) :
    (h.run c mm (.ok patches)).outcome = .error (.setKubeConfigFailed h.Name err) ∧
    (h.run c mm (.ok patches)).mm = mm ∧
    (h.run c mm (.ok patches)).mm.kubeGlobalConfigValues = mm.kubeGlobalConfigValues ∧
    (h.run c mm (.ok patches)).mm.globalDynamicValuesPatches =
      mm.globalDynamicValuesPatches := by
  have hc : h.runConfigValuesPatch c mm patches.ConfigMapPatch =
      ⟨mm, [res.Values], .error (.setKubeConfigFailed h.Name err)⟩ := by
    unfold GlobalHook.configValues at hres
    simp [GlobalHook.runConfigValuesPatch, hp, hres, hchanged, hset]
  rw [run_of_config_error h c mm mm patches _ _ hc]
  exact ⟨rfl, rfl, rfl, rfl⟩

/-- C4 (witness): the config patch `add /global/x 1` on an empty config with a
kube config manager that rejects the write. -/
theorem run_persistence_failure_witness :
    (⟨some addXPatch, none⟩ : Patches).ConfigMapPatch = some addXPatch ∧
    handleGlobalValuesPatch (specCollaborators false)
        (GlobalHook.configValues (specCollaborators false) emptyManager) addXPatch =
      .ok ⟨[("global", .obj [("x", .num 1)])], some [("x", .num 1)], addXPatch, true⟩ ∧
    (specCollaborators false).SetKubeGlobalValues [("global", .obj [("x", .num 1)])] =
      .error (.external "kube config manager failed") ∧
    (sampleHook.run (specCollaborators false) emptyManager
        (.ok ⟨some addXPatch, none⟩)).outcome =
      .error (.setKubeConfigFailed sampleHook.Name (.external "kube config manager failed")) ∧
    (sampleHook.run (specCollaborators false) emptyManager
        (.ok ⟨some addXPatch, none⟩)).mm.kubeGlobalConfigValues =
      emptyManager.kubeGlobalConfigValues :=
  have hrun := run_persistence_failure sampleHook (specCollaborators false) emptyManager
    ⟨some addXPatch, none⟩ addXPatch
    ⟨[("global", .obj [("x", .num 1)])], some [("x", .num 1)], addXPatch, true⟩
    (.external "kube config manager failed") rfl rfl rfl rfl
  ⟨rfl, rfl, rfl, hrun.1, hrun.2.2.1⟩

/-- C5: when each patch the executor returned validates and applies with
`changed=false` (an absent patch included), `run` returns nil, the manager is
unchanged, in particular `globalDynamicValuesPatches` (length and contents) and
`kubeGlobalConfigValues`, and `SetKubeGlobalValues` is not called.  A patch
validates and applies when `handleGlobalValuesPatch` returns a result for it:
the config patch on the prepared config values, the memory patch on the
effective values that `values()` computes. -/
theorem run_unchanged (h : GlobalHook) (c : Collaborators) (mm : MainModuleManager)
    (patches : Patches)
    (hconfig : ∀ p, patches.ConfigMapPatch = some p →
      ∃ res, handleGlobalValuesPatch c (GlobalHook.configValues c mm) p = .ok res ∧
        res.ValuesChanged = false)
    (hmemory : ∀ p, patches.MemoryValuesPatch = some p →
      ∃ values res, GlobalHook.values c mm = .ok values ∧
        handleGlobalValuesPatch c values p = .ok res ∧ res.ValuesChanged = false) :
    (h.run c mm (.ok patches)).outcome = .nil ∧
    (h.run c mm (.ok patches)).mm = mm ∧
    (h.run c mm (.ok patches)).mm.globalDynamicValuesPatches =
      mm.globalDynamicValuesPatches ∧
    (h.run c mm (.ok patches)).mm.globalDynamicValuesPatches.length =
      mm.globalDynamicValuesPatches.length ∧
    (h.run c mm (.ok patches)).mm.kubeGlobalConfigValues = mm.kubeGlobalConfigValues ∧
    (h.run c mm (.ok patches)).setKubeGlobalValuesCalls = [] := by
  have hc : h.runConfigValuesPatch c mm patches.ConfigMapPatch = ⟨mm, [], .nil⟩ := by
    rcases runConfig_cases h c mm patches.ConfigMapPatch with
      ⟨hc, _⟩ | ⟨p, err, hp, hh, _⟩ | ⟨p, res, err, hp, hh, hch, _, _⟩ |
      ⟨p, res, hp, hh, hch, _, _⟩
    · exact hc
    · obtain ⟨res, hres, _⟩ := hconfig p hp
      rw [hh] at hres; cases hres
    · obtain ⟨res', hres, hch'⟩ := hconfig p hp
      rw [hh] at hres; cases hres
      rw [hch] at hch'; cases hch'
    · obtain ⟨res', hres, hch'⟩ := hconfig p hp
      rw [hh] at hres; cases hres
      rw [hch] at hch'; cases hch'
  have hm : h.runMemoryValuesPatch c mm patches.MemoryValuesPatch = (mm, .nil) := by
    rcases runMemory_cases h c mm patches.MemoryValuesPatch with
      ⟨hm, _⟩ | ⟨p, err, hp, hv, _⟩ | ⟨p, values, err, hp, hv, hh, _⟩ |
      ⟨p, values, res, nv, hp, hv, hh, hch, _, _, _⟩
    · exact hm
    · obtain ⟨values, res, hv', _, _⟩ := hmemory p hp
      rw [hv] at hv'; cases hv'
    · obtain ⟨values', res, hv', hres, _⟩ := hmemory p hp
      rw [hv] at hv'; cases hv'
      rw [hh] at hres; cases hres
    · obtain ⟨values', res', hv', hres, hch'⟩ := hmemory p hp
      rw [hv] at hv'; cases hv'
      rw [hh] at hres; cases hres
      rw [hch] at hch'; cases hch'
  rw [run_of_config_nil h c mm mm patches [] hc, hm]
  exact ⟨rfl, rfl, rfl, rfl, rfl, rfl⟩

/-- C5 (witness): the config values are `{global: {x: 1}}` and both patches are
`add /global/x 1`, which changes nothing. -/
theorem run_unchanged_witness :
    (∀ p, (⟨some addXPatch, some addXPatch⟩ : Patches).ConfigMapPatch = some p →
      ∃ res, handleGlobalValuesPatch (specCollaborators true)
          (GlobalHook.configValues (specCollaborators true) managerWithX) p = .ok res ∧
        res.ValuesChanged = false) ∧
    (∀ p, (⟨some addXPatch, some addXPatch⟩ : Patches).MemoryValuesPatch = some p →
      ∃ values res, GlobalHook.values (specCollaborators true) managerWithX = .ok values ∧
        handleGlobalValuesPatch (specCollaborators true) values p = .ok res ∧
        res.ValuesChanged = false) ∧
    (sampleHook.run (specCollaborators true) managerWithX
        (.ok ⟨some addXPatch, some addXPatch⟩)).outcome = .nil ∧
    (sampleHook.run (specCollaborators true) managerWithX
        (.ok ⟨some addXPatch, some addXPatch⟩)).mm.globalDynamicValuesPatches.length =
      managerWithX.globalDynamicValuesPatches.length ∧
    (sampleHook.run (specCollaborators true) managerWithX
        (.ok ⟨some addXPatch, some addXPatch⟩)).setKubeGlobalValuesCalls = [] :=
  have hconfig : ∀ p, (⟨some addXPatch, some addXPatch⟩ : Patches).ConfigMapPatch = some p →
      ∃ res, handleGlobalValuesPatch (specCollaborators true)
          (GlobalHook.configValues (specCollaborators true) managerWithX) p = .ok res ∧
        res.ValuesChanged = false :=
    fun p hp => by cases hp; exact ⟨_, rfl, rfl⟩
  have hmemory : ∀ p,
      (⟨some addXPatch, some addXPatch⟩ : Patches).MemoryValuesPatch = some p →
      ∃ values res, GlobalHook.values (specCollaborators true) managerWithX = .ok values ∧
        handleGlobalValuesPatch (specCollaborators true) values p = .ok res ∧
        res.ValuesChanged = false :=
    fun p hp => by cases hp; exact ⟨_, _, rfl, rfl, rfl⟩
  have hrun := run_unchanged sampleHook (specCollaborators true) managerWithX
    ⟨some addXPatch, some addXPatch⟩ hconfig hmemory
  ⟨hconfig, hmemory, hrun.1, hrun.2.2.2.1, hrun.2.2.2.2.2⟩

/-- C6: after a `run` that returns nil with a memory patch, the effective values
`values()` computes, by replaying the whole log over the merge of
`{global:{}}`, the static values and the kube config values, are the tree that
`ApplyValuesPatch` produced when the memory patch was applied to the effective
values during the run.  `ApplyValuesPatch` is assumed to report `changed=false`
only for a result equal to its input. -/
theorem run_memory_patch_replay (h : GlobalHook) (c : Collaborators) (mm : MainModuleManager)
    (patches : Patches) (p : ValuesPatch)
    (hcontract : c.UnchangedIsInput)
    (hp : patches.MemoryValuesPatch = some p)
    (hnil : (h.run c mm (.ok patches)).outcome = .nil) :
    ∃ (during newValues : Values) (changed : Bool),
      GlobalHook.values c (h.runConfigValuesPatch c mm patches.ConfigMapPatch).mm =
        .ok during ∧
      c.ApplyValuesPatch during p = .ok (newValues, changed) ∧
      GlobalHook.values c (h.run c mm (.ok patches)).mm = .ok newValues := by
  -- the memory block from the state `mm1` the config block left
  have memory : ∀ (mm1 : MainModuleManager) (calls : List Values),
      h.runConfigValuesPatch c mm patches.ConfigMapPatch = ⟨mm1, calls, .nil⟩ →
      ∃ (during newValues : Values) (changed : Bool),
        GlobalHook.values c mm1 = .ok during ∧
        c.ApplyValuesPatch during p = .ok (newValues, changed) ∧
        GlobalHook.values c (h.run c mm (.ok patches)).mm = .ok newValues := by
    intro mm1 calls hc
    have hrun := run_of_config_nil h c mm mm1 patches calls hc
    rw [hrun] at hnil ⊢
    rcases runMemory_cases h c mm1 patches.MemoryValuesPatch with
      ⟨hm, hun⟩ | ⟨q, err, _, _, hm⟩ | ⟨q, values, err, _, _, _, hm⟩ |
      ⟨q, values, res, nv, hq, hv, _, _, happly, hnew, hm⟩
    · obtain ⟨values, res, hv, hh, hch⟩ := hun p hp
      obtain ⟨_, newValues, happly⟩ := handle_ok_apply c values p res hh
      rw [hch] at happly
      have heq := hcontract values p newValues happly
      subst heq
      rw [hm]
      exact ⟨newValues, newValues, false, hv, happly, hv⟩
    · rw [hm] at hnil; cases hnil
    · rw [hm] at hnil; cases hnil
    · rw [hp] at hq
      cases hq
      rw [hm]
      exact ⟨values, nv, true, hv, happly, hnew⟩
  rcases runConfig_cases h c mm patches.ConfigMapPatch with
    ⟨hc, _⟩ | ⟨q, err, _, _, hc⟩ | ⟨q, res, err, _, _, _, _, hc⟩ | ⟨q, res, _, _, _, _, hc⟩
  · rw [hc]; exact memory mm [] hc
  · rw [run_of_config_error h c mm mm patches _ _ hc] at hnil; cases hnil
  · rw [run_of_config_error h c mm mm patches _ _ hc] at hnil; cases hnil
  · rw [hc]; exact memory _ _ hc

/-- C6 (witness): scenario S1 of the specification, the memory patch
`add /global/x 1` on an empty manager; afterwards the effective values are
`{global: {x: 1}}`. -/
theorem run_memory_patch_replay_witness :
    (specCollaborators true).UnchangedIsInput ∧
    (⟨none, some addXPatch⟩ : Patches).MemoryValuesPatch = some addXPatch ∧
    (sampleHook.run (specCollaborators true) emptyManager
        (.ok ⟨none, some addXPatch⟩)).outcome = .nil ∧
    GlobalHook.values (specCollaborators true)
        (sampleHook.run (specCollaborators true) emptyManager
          (.ok ⟨none, some addXPatch⟩)).mm =
      .ok [("global", .obj [("x", .num 1)])] ∧
    ∃ (during newValues : Values) (changed : Bool),
      GlobalHook.values (specCollaborators true)
          (sampleHook.runConfigValuesPatch (specCollaborators true) emptyManager
            (⟨none, some addXPatch⟩ : Patches).ConfigMapPatch).mm = .ok during ∧
      (specCollaborators true).ApplyValuesPatch during addXPatch =
        .ok (newValues, changed) ∧
      GlobalHook.values (specCollaborators true)
          (sampleHook.run (specCollaborators true) emptyManager
            (.ok ⟨none, some addXPatch⟩)).mm = .ok newValues :=
  ⟨spec_unchangedIsInput true, rfl, rfl, rfl,
    run_memory_patch_replay sampleHook (specCollaborators true) emptyManager
      ⟨none, some addXPatch⟩ addXPatch (spec_unchangedIsInput true) rfl rfl⟩

/-- C7 (amended): when `registerGlobalHook` succeeds, the hook stored under the
name has a `Bindings` list that contains, without duplicates, exactly the
binding kinds the config declares with content (a non-null value for
`beforeAll`, `afterAll`, `onStartup`; a non-empty array for `schedule`,
`onKubernetesEvent`), and `OrderByBinding` holds an entry for exactly the
order-bearing bindings among them, equal to the configured number. -/
theorem registerGlobalHook_bindings (mm : MainModuleManager) (name path : String)
    (config : GlobalHookConfig)
    (h : (registerGlobalHook mm name path config).2 = .ok ()) :
    ∃ hook : GlobalHook,
      (registerGlobalHook mm name path config).1.globalHooksByName name = some hook ∧
      hook.Name = name ∧ hook.Config = config ∧
      hook.Bindings.Nodup ∧
      (∀ b, b ∈ hook.Bindings ↔ config.declares b) ∧
      (∀ b x, mapGet hook.OrderByBinding b = some x ↔
        config.orderValue b = some (Json.num x)) := by
  rw [registerGlobalHook_error_eq] at h
  refine ⟨(buildGlobalHook name path config).1, ?_, ?_, ?_, buildGlobalHook_ok_hook _ _ _ h⟩
  · rw [registerGlobalHook_byName_ok _ _ _ _ h]; simp
  · exact (buildGlobalHook_name_config name path config).1
  · exact (buildGlobalHook_name_config name path config).2.2

/-- C7 (witness): registration of a hook with `beforeAll: 10`, `onStartup: 5`
and one schedule entry succeeds and stores a hook with the stated bindings. -/
theorem registerGlobalHook_bindings_witness :
    (registerGlobalHook emptyManager "hook" "/hooks/hook" sampleGlobalConfig).2 = .ok () ∧
    ∃ hook : GlobalHook,
      (registerGlobalHook emptyManager "hook" "/hooks/hook"
        sampleGlobalConfig).1.globalHooksByName "hook" = some hook ∧
      hook.Name = "hook" ∧ hook.Config = sampleGlobalConfig ∧
      hook.Bindings.Nodup ∧
      (∀ b, b ∈ hook.Bindings ↔ sampleGlobalConfig.declares b) ∧
      (∀ b x, mapGet hook.OrderByBinding b = some x ↔
        sampleGlobalConfig.orderValue b = some (Json.num x)) :=
  ⟨rfl, registerGlobalHook_bindings emptyManager "hook" "/hooks/hook" sampleGlobalConfig rfl⟩

/-- C7 (counterexample): a hook whose config is `{"schedule": []}` has the key
`schedule` present, registration succeeds, and the stored hook has no
`Schedule` binding. -/
theorem registerGlobalHook_empty_schedule_not_bound :
    emptyScheduleConfig.keyPresent .Schedule ∧
    (registerGlobalHook emptyManager "hook" "/hooks/hook" emptyScheduleConfig).2 = .ok () ∧
    ∃ hook : GlobalHook,
      (registerGlobalHook emptyManager "hook" "/hooks/hook"
        emptyScheduleConfig).1.globalHooksByName "hook" = some hook ∧
      BindingType.Schedule ∉ hook.Bindings := by
  refine ⟨by simp [GlobalHookConfig.keyPresent, emptyScheduleConfig], rfl, ?_⟩
  refine ⟨(buildGlobalHook "hook" "/hooks/hook" emptyScheduleConfig).1, ?_, ?_⟩
  · rw [registerGlobalHook_byName_ok emptyManager "hook" "/hooks/hook" emptyScheduleConfig rfl]
    simp
  · simp [buildGlobalHook, emptyScheduleConfig, orderBinding_null, listBinding, goLen,
      NewGlobalHook, NewHook]

/-- C8: `registerGlobalHook` returns an error if and only if one of `beforeAll`,
`afterAll`, `onStartup` is non-null and not a number; `registerModuleHook`, for
a module that `GetModule` finds, returns an error if and only if one of
`beforeHelm`, `afterHelm`, `afterDeleteHelm`, `onStartup` is non-null and not a
number. -/
theorem register_error_iff (GetModule : String → Except HookError Module)
    (mm : MainModuleManager) (name path : String) (config : GlobalHookConfig)
    (moduleName hookName hookPath : String) (moduleConfig : ModuleHookConfig)
    (module : Module) (hmodule : GetModule moduleName = .ok module) :
    ((∃ e, (registerGlobalHook mm name path config).2 = .error e) ↔
      config.BeforeAll.isBadOrder ∨ config.AfterAll.isBadOrder ∨
        config.OnStartup.isBadOrder) ∧
    ((∃ e, (registerModuleHook GetModule mm moduleName hookName hookPath moduleConfig).2 =
        .error e) ↔
      moduleConfig.BeforeHelm.isBadOrder ∨ moduleConfig.AfterHelm.isBadOrder ∨
        moduleConfig.AfterDeleteHelm.isBadOrder ∨ moduleConfig.OnStartup.isBadOrder) := by
  constructor
  · rw [except_unit_error_iff, registerGlobalHook_error_eq, Ne, buildGlobalHook_ok_iff,
      Json.isOrder_iff, Json.isOrder_iff, Json.isOrder_iff]
    tauto
  · rw [except_unit_error_iff, registerModuleHook_error_eq _ _ _ _ _ _ _ hmodule, Ne,
      buildModuleHook_ok_iff, Json.isOrder_iff, Json.isOrder_iff, Json.isOrder_iff,
      Json.isOrder_iff]
    tauto

/-- C8 (witness): with a module lookup that finds the module "mod", the
equivalences hold for the global config `{"beforeAll": 1, "afterAll": "last"}`
and the module config `{"beforeHelm": 1, "afterHelm": true}`. -/
theorem register_error_iff_witness :
    sampleGetModule "mod" = .ok ⟨"mod", "/modules/mod"⟩ ∧
    ((∃ e, (registerGlobalHook emptyManager "hook" "/hooks/hook" badAfterAllConfig).2 =
        .error e) ↔
      badAfterAllConfig.BeforeAll.isBadOrder ∨ badAfterAllConfig.AfterAll.isBadOrder ∨
        badAfterAllConfig.OnStartup.isBadOrder) ∧
    ((∃ e, (registerModuleHook sampleGetModule emptyManager "mod" "mod/hooks/hook"
        "/modules/mod/hooks/hook" badAfterHelmConfig).2 = .error e) ↔
      badAfterHelmConfig.BeforeHelm.isBadOrder ∨ badAfterHelmConfig.AfterHelm.isBadOrder ∨
        badAfterHelmConfig.AfterDeleteHelm.isBadOrder ∨
        badAfterHelmConfig.OnStartup.isBadOrder) :=
  ⟨rfl, register_error_iff sampleGetModule emptyManager "hook" "/hooks/hook" badAfterAllConfig
    "mod" "mod/hooks/hook" "/modules/mod/hooks/hook" badAfterHelmConfig
    ⟨"mod", "/modules/mod"⟩ rfl⟩

/-- C9 (amended): registering a global hook under a name that is already a key
of the by-name index does not fail for that reason.  `registerGlobalHook`
returns nil exactly when `beforeAll`, `afterAll` and `onStartup` are each
absent or a number, and then the new hook replaces the entry stored under the
name; when it returns an error, the entry previously stored is kept. -/
theorem registerGlobalHook_existing_name (mm : MainModuleManager) (name path : String)
    (config : GlobalHookConfig) (old : GlobalHook)
    (h : mm.globalHooksByName name = some old) :
    ((registerGlobalHook mm name path config).2 = .ok () ↔
      ¬ config.BeforeAll.isBadOrder ∧ ¬ config.AfterAll.isBadOrder ∧
        ¬ config.OnStartup.isBadOrder) ∧
    ((registerGlobalHook mm name path config).2 = .ok () →
      ∃ hook : GlobalHook,
        (registerGlobalHook mm name path config).1.globalHooksByName name = some hook ∧
        hook.Name = name ∧ hook.Path = path ∧ hook.Config = config) ∧
    (∀ e, (registerGlobalHook mm name path config).2 = .error e →
      (registerGlobalHook mm name path config).1.globalHooksByName name = some old) := by
  refine ⟨?_, ?_, ?_⟩
  · rw [registerGlobalHook_error_eq, buildGlobalHook_ok_iff, Json.isOrder_iff,
      Json.isOrder_iff, Json.isOrder_iff]
  · intro hok
    rw [registerGlobalHook_error_eq] at hok
    refine ⟨(buildGlobalHook name path config).1, ?_, ?_⟩
    · rw [registerGlobalHook_byName_ok _ _ _ _ hok]; simp
    · exact buildGlobalHook_name_config name path config
  · intro e he
    rw [registerGlobalHook_error_eq] at he
    rw [registerGlobalHook_byName_error _ _ _ _ e he, h]

/-- C9 (witness): the amended statement at the manager that already holds a
hook named "hook". -/
theorem registerGlobalHook_existing_name_witness :
    managerWithHook.globalHooksByName "hook" =
      some (NewGlobalHook "hook" "/hooks/old" emptyScheduleConfig) ∧
    ((registerGlobalHook managerWithHook "hook" "/hooks/new" sampleGlobalConfig).2 = .ok () →
      ∃ hook : GlobalHook,
        (registerGlobalHook managerWithHook "hook" "/hooks/new"
          sampleGlobalConfig).1.globalHooksByName "hook" = some hook ∧
        hook.Name = "hook" ∧ hook.Path = "/hooks/new" ∧ hook.Config = sampleGlobalConfig) :=
  ⟨rfl, (registerGlobalHook_existing_name managerWithHook "hook" "/hooks/new"
    sampleGlobalConfig _ rfl).2.1⟩

/-- C9 (counterexample): the by-name index already holds a hook under the name
"hook"; registering another hook under that name returns no error and the
entry previously stored is replaced. -/
theorem registerGlobalHook_overwrites_name :
    managerWithHook.globalHooksByName "hook" =
      some (NewGlobalHook "hook" "/hooks/old" emptyScheduleConfig) ∧
    (registerGlobalHook managerWithHook "hook" "/hooks/new" sampleGlobalConfig).2 = .ok () ∧
    (registerGlobalHook managerWithHook "hook" "/hooks/new"
        sampleGlobalConfig).1.globalHooksByName "hook" ≠
      managerWithHook.globalHooksByName "hook" := by
  refine ⟨rfl, rfl, ?_⟩
  rw [registerGlobalHook_byName_ok managerWithHook "hook" "/hooks/new" sampleGlobalConfig rfl]
  intro hEq
  have hpath := congrArg (fun o : Option GlobalHook => o.map (fun g => g.Path)) hEq
  simp [managerWithHook, NewGlobalHook, NewHook,
    (buildGlobalHook_name_config "hook" "/hooks/new" sampleGlobalConfig).2.1] at hpath

/-- C10 (amended): after any sequence of `registerGlobalHook` calls that starts
from empty indices, `globalHooksOrder[b]` is, in the order of the calls, the
list of the hooks whose call reached the block of `b` with a config that
declares `b` there (a number for an order-bearing kind, a non-empty array for
`schedule` and `onKubernetesEvent`) after passing every earlier order check.
For a call that returns nil these are exactly the calls whose config declares
`b`, so when every call of the sequence returns nil the list is the list of the
hooks whose config declares `b`. -/
theorem registerGlobalHooks_order (mm : MainModuleManager) (calls : List GlobalHookCall)
    (b : BindingType) :
    (registerGlobalHooks (emptyGlobalIndices mm) calls).globalHooksOrder b =
        (calls.filter (fun c => c.config.reaches b)).map GlobalHookCall.hook ∧
    (∀ (m : MainModuleManager) (c : GlobalHookCall),
      (registerGlobalHook m c.name c.path c.config).2 = .ok () →
        (c.config.reaches b = true ↔ c.config.declares b)) ∧
    ((∀ (m : MainModuleManager), ∀ c ∈ calls,
        (registerGlobalHook m c.name c.path c.config).2 = .ok ()) →
      (registerGlobalHooks (emptyGlobalIndices mm) calls).globalHooksOrder b =
        (calls.filter (fun c => decide (c.config.declares b))).map GlobalHookCall.hook) := by
  have hlist : (registerGlobalHooks (emptyGlobalIndices mm) calls).globalHooksOrder b =
      (calls.filter (fun c => c.config.reaches b)).map GlobalHookCall.hook := by
    rw [registerGlobalHooks_order_append]
    simp [emptyGlobalIndices]
  have hok : ∀ (m : MainModuleManager) (c : GlobalHookCall),
      (registerGlobalHook m c.name c.path c.config).2 = .ok () →
        (c.config.reaches b = true ↔ c.config.declares b) := by
    intro m c hc
    rw [registerGlobalHook_error_eq, buildGlobalHook_ok_iff] at hc
    exact reaches_iff_declares_of_ok c.config hc.1 hc.2.1 hc.2.2 b
  refine ⟨hlist, hok, ?_⟩
  intro hall
  rw [hlist]
  congr 1
  apply List.filter_congr
  intro c hc
  have := hok mm c (hall mm c hc)
  by_cases hd : c.config.declares b
  · simp [hd, this.mpr hd]
  · have hr : c.config.reaches b = false := by
      cases hrb : c.config.reaches b with
      | false => rfl
      | true => exact absurd (this.mp hrb) hd
    simp [hd, hr]

/-- C10 (witness): two calls that return nil; only the first config declares
`beforeAll`, and the `BeforeAll` list holds the hook of the first call. -/
theorem registerGlobalHooks_order_witness :
    (∀ (m : MainModuleManager), ∀ c ∈ sampleCalls,
      (registerGlobalHook m c.name c.path c.config).2 = .ok ()) ∧
    (sampleCalls.filter (fun c => decide (c.config.declares .BeforeAll))).map
        GlobalHookCall.hook =
      [GlobalHookCall.hook ⟨"a", "/hooks/a", sampleGlobalConfig⟩] ∧
    (registerGlobalHooks (emptyGlobalIndices emptyManager) sampleCalls).globalHooksOrder
        .BeforeAll =
      (sampleCalls.filter (fun c => decide (c.config.declares .BeforeAll))).map
        GlobalHookCall.hook :=
  have hall : ∀ (m : MainModuleManager), ∀ c ∈ sampleCalls,
      (registerGlobalHook m c.name c.path c.config).2 = .ok () := by
    intro m c hc
    simp only [sampleCalls, List.mem_cons, List.mem_singleton, List.not_mem_nil,
      or_false] at hc
    rcases hc with rfl | rfl <;> rfl
  ⟨hall, by decide,
    (registerGlobalHooks_order emptyManager sampleCalls .BeforeAll).2.2 hall⟩

/-- C10 (counterexample): the call with config
`{"beforeAll": 1, "afterAll": "last"}` returns an error, and the hook it built
is in the `BeforeAll` list afterwards. -/
theorem registerGlobalHook_error_keeps_hook_in_list :
    (∃ e, (registerGlobalHook (emptyGlobalIndices emptyManager) "hook" "/hooks/hook"
        badAfterAllConfig).2 = .error e) ∧
    (registerGlobalHooks (emptyGlobalIndices emptyManager)
        [⟨"hook", "/hooks/hook", badAfterAllConfig⟩]).globalHooksOrder .BeforeAll =
      [GlobalHookCall.hook ⟨"hook", "/hooks/hook", badAfterAllConfig⟩] := by
  refine ⟨⟨HookError.unsupportedValue (.str "last") .AfterAll, rfl⟩, ?_⟩
  rw [(registerGlobalHooks_order_append _ _ _)]
  simp [emptyGlobalIndices, emptyManager, GlobalHookConfig.reaches, badAfterAllConfig,
    Json.isNumber_num]

/-- C11 (amended): for a patch that passes scope validation and applies without
error, `handleGlobalValuesPatch` returns an error when the resulting tree binds
"global" to a value that is not a mapping.  When the key is absent from the
resulting tree it returns no error: the result carries `{global: {}}` as values
and no global values.  When the key is bound to a mapping the result carries
that mapping.  `handleModuleValuesPatch` does the same for the values key of
the module. -/
theorem handle_values_key (c : Collaborators) (toKey : String → String) (h : ModuleHook)
    (cur : Values) (patch : ValuesPatch) (newValuesRaw : Values) (changed : Bool)
    (curM : Values) (patchM : ValuesPatch) (newValuesRawM : Values) (changedM : Bool)
    (hvalidate : validateHookValuesPatch patch "global" = .ok ())
    (happly : c.ApplyValuesPatch cur patch = .ok (newValuesRaw, changed))
    (hvalidateM : validateHookValuesPatch patchM (toKey h.Module.Name) = .ok ())
    (happlyM : c.ApplyValuesPatch curM patchM = .ok (newValuesRawM, changedM)) :
    ((∀ v, mapGet newValuesRaw "global" = some v → (∀ m, v ≠ Json.obj m) →
        handleGlobalValuesPatch c cur patch = .error (.expectedMap "global" v)) ∧
      (mapGet newValuesRaw "global" = none →
        handleGlobalValuesPatch c cur patch =
          .ok ⟨[("global", .obj [])], none, patch, changed⟩) ∧
      (∀ m, mapGet newValuesRaw "global" = some (Json.obj m) →
        handleGlobalValuesPatch c cur patch =
          .ok ⟨[("global", .obj m)], some m, patch, changed⟩)) ∧
    ((∀ v, mapGet newValuesRawM (toKey h.Module.Name) = some v → (∀ m, v ≠ Json.obj m) →
        handleModuleValuesPatch c toKey h curM patchM =
          .error (.expectedMap (toKey h.Module.Name) v)) ∧
      (mapGet newValuesRawM (toKey h.Module.Name) = none →
        handleModuleValuesPatch c toKey h curM patchM =
          .ok ⟨[(toKey h.Module.Name, .obj [])], none, toKey h.Module.Name, patchM,
            changedM⟩) ∧
      (∀ m, mapGet newValuesRawM (toKey h.Module.Name) = some (Json.obj m) →
        handleModuleValuesPatch c toKey h curM patchM =
          .ok ⟨[(toKey h.Module.Name, .obj m)], some m, toKey h.Module.Name, patchM,
            changedM⟩)) := by
  rw [handleGlobal_of_apply c cur patch newValuesRaw changed hvalidate happly,
    handleModule_of_apply c toKey h curM patchM newValuesRawM changedM hvalidateM happlyM]
  refine ⟨⟨?_, ?_, ?_⟩, ?_, ?_, ?_⟩
  · intro v hv hnot
    rw [hv]
    cases v <;> first | rfl | exact absurd rfl (hnot _)
  · intro hnone
    rw [hnone]
  · intro m hm
    rw [hm]
  · intro v hv hnot
    rw [hv]
    cases v <;> first | rfl | exact absurd rfl (hnot _)
  · intro hnone
    rw [hnone]
  · intro m hm
    rw [hm]

/-- C11 (witness): the global patch `add /global "text"` on `{global: {x: 1}}`
binds "global" to a string and is refused; the patch `add /mod/y 1` of a hook
of module "mod" on `{mod: {}}` is accepted. -/
theorem handle_values_key_witness :
    validateHookValuesPatch globalTextPatch "global" = .ok () ∧
    (specCollaborators true).ApplyValuesPatch [("global", .obj [("x", .num 1)])]
        globalTextPatch = .ok ([("global", .str "text")], true) ∧
    validateHookValuesPatch addModYPatch (id sampleModuleHook.Module.Name) = .ok () ∧
    (specCollaborators true).ApplyValuesPatch [("mod", .obj [])] addModYPatch =
      .ok ([("mod", .obj [("y", .num 1)])], true) ∧
    handleGlobalValuesPatch (specCollaborators true) [("global", .obj [("x", .num 1)])]
        globalTextPatch = .error (.expectedMap "global" (.str "text")) ∧
    handleModuleValuesPatch (specCollaborators true) id sampleModuleHook [("mod", .obj [])]
        addModYPatch =
      .ok ⟨[("mod", .obj [("y", .num 1)])], some [("y", .num 1)], "mod", addModYPatch, true⟩ :=
  have hall := handle_values_key (specCollaborators true) id sampleModuleHook
    [("global", .obj [("x", .num 1)])] globalTextPatch [("global", .str "text")] true
    [("mod", .obj [])] addModYPatch [("mod", .obj [("y", .num 1)])] true rfl rfl rfl rfl
  ⟨rfl, rfl, rfl, rfl, hall.1.1 (.str "text") rfl (fun _ hm => by cases hm),
    hall.2.2.2 [("y", .num 1)] rfl⟩

/-- C11 (counterexample): the patch `remove /global` passes scope validation
and applies to `{global: {x: 1}}` without error; the resulting tree has no key
"global", and `handleGlobalValuesPatch` returns a result, not an error. -/
theorem handleGlobalValuesPatch_accepts_absent_key :
    validateHookValuesPatch removeGlobalPatch "global" = .ok () ∧
    (specCollaborators true).ApplyValuesPatch [("global", .obj [("x", .num 1)])]
        removeGlobalPatch = .ok ([], true) ∧
    mapGet ([] : Values) "global" = none ∧
    handleGlobalValuesPatch (specCollaborators true) [("global", .obj [("x", .num 1)])]
        removeGlobalPatch =
      .ok ⟨[("global", .obj [])], none, removeGlobalPatch, true⟩ := by
  refine ⟨rfl, rfl, rfl, rfl⟩

/-- C12 (amended): take a manager whose `kubeGlobalConfigValues` bind "global"
to mappings only, and any sequence of `GlobalHook.run` invocations that each
return nil.  Afterwards `configValues()` contains the top-level key "global"
bound to a mapping.  When the last invocation carried a memory patch,
`values()` returns a tree in which the key "global" is either bound to a
mapping or absent.  `MergeValues` is assumed to keep a mapping under "global"
and `ApplyValuesPatch` to report `changed=false` only for its input tree. -/
theorem runs_keep_global_key (c : Collaborators) (mm : MainModuleManager)
    (invs : List Invocation)
    (hmerge : c.MergeKeepsGlobal) (hcontract : c.UnchangedIsInput)
    (hinit : bindsOnlyMappings mm.kubeGlobalConfigValues "global")
    (hnil : allReturnNil c mm invs) :
    boundToMapping (GlobalHook.configValues c (runAll c mm invs)) "global" ∧
    ∀ (before : List Invocation) (inv : Invocation) (patches : Patches) (p : ValuesPatch),
      invs = before ++ [inv] → inv.executorRun = .ok patches →
      patches.MemoryValuesPatch = some p →
      ∃ v, GlobalHook.values c (runAll c mm invs) = .ok v ∧
        (mapGet v "global" = none ∨ boundToMapping v "global") := by
  refine ⟨?_, ?_⟩
  · exact hmerge _ (runAll_keeps_kube_mappings c invs mm hinit)
  · intro before inv patches p hinvs hexec hp
    subst hinvs
    have hlast := allReturnNil_append c before inv mm hnil
    rw [runAll_append]
    rw [hexec] at hlast ⊢
    exact values_after_memory_patch inv.hook c _ patches p hcontract hp hlast

/-- C12 (witness): one invocation with the config patch and the memory patch
`add /global/x 1` on the empty manager. -/
theorem runs_keep_global_key_witness :
    (specCollaborators true).MergeKeepsGlobal ∧
    (specCollaborators true).UnchangedIsInput ∧
    bindsOnlyMappings emptyManager.kubeGlobalConfigValues "global" ∧
    allReturnNil (specCollaborators true) emptyManager
      [⟨sampleHook, .ok ⟨some addXPatch, some addXPatch⟩⟩] ∧
    boundToMapping (GlobalHook.configValues (specCollaborators true)
      (runAll (specCollaborators true) emptyManager
        [⟨sampleHook, .ok ⟨some addXPatch, some addXPatch⟩⟩])) "global" ∧
    GlobalHook.values (specCollaborators true)
        (runAll (specCollaborators true) emptyManager
          [⟨sampleHook, .ok ⟨some addXPatch, some addXPatch⟩⟩]) =
      .ok [("global", .obj [("x", .num 1)])] :=
  have hinit : bindsOnlyMappings emptyManager.kubeGlobalConfigValues "global" :=
    fun _ hv => by cases hv
  have hnil : allReturnNil (specCollaborators true) emptyManager
      [⟨sampleHook, .ok ⟨some addXPatch, some addXPatch⟩⟩] := ⟨rfl, trivial⟩
  ⟨spec_mergeKeepsGlobal true, spec_unchangedIsInput true, hinit, hnil,
    (runs_keep_global_key (specCollaborators true) emptyManager _
      (spec_mergeKeepsGlobal true) (spec_unchangedIsInput true) hinit hnil).1, rfl⟩

/-- C12 (counterexample): the config values are `{global: {x: 1}}` and the
executor returns the memory patch `remove /global`.  `run` returns nil and
stores the patch; afterwards `values()` returns the empty tree, which has no
key "global". -/
theorem values_without_global_key :
    (sampleHook.run (specCollaborators true) managerWithX
        (.ok ⟨none, some removeGlobalPatch⟩)).outcome = .nil ∧
    (sampleHook.run (specCollaborators true) managerWithX
        (.ok ⟨none, some removeGlobalPatch⟩)).mm.globalDynamicValuesPatches =
      [removeGlobalPatch] ∧
    GlobalHook.values (specCollaborators true)
        (sampleHook.run (specCollaborators true) managerWithX
          (.ok ⟨none, some removeGlobalPatch⟩)).mm = .ok [] ∧
    ¬ boundToMapping ([] : Values) "global" := by
  refine ⟨rfl, rfl, rfl, ?_⟩
  rintro ⟨m, hm⟩
  cases hm

/-- C13 (code): the patch files of a module hook and of a global hook that
carry the same hook name are the same files, whatever the module, the
sanitizing function and the temp directory: `ModuleHook` formats
`<hook>.global-hook-config-values.json-patch` and
`<hook>.global-hook-values.json-patch` from the sanitized hook name alone.  The
sibling helper for the binding context does start its file name with the
sanitized name of the module. -/
theorem module_patch_files_collide (sys : System) (tempDir : String) (name : String)
    (modulePath globalPath : String) (moduleConfig : ModuleHookConfig)
    (globalConfig : GlobalHookConfig) (module : Module) :
    ModuleHook.prepareConfigValuesJsonPatchFile sys tempDir
        (NewModuleHook name modulePath moduleConfig module) =
      GlobalHook.prepareConfigValuesJsonPatchFile sys tempDir
        (NewGlobalHook name globalPath globalConfig) ∧
    ModuleHook.prepareValuesJsonPatchFile sys tempDir
        (NewModuleHook name modulePath moduleConfig module) =
      GlobalHook.prepareValuesJsonPatchFile sys tempDir
        (NewGlobalHook name globalPath globalConfig) ∧
    ModuleHook.prepareConfigValuesJsonPatchFile sys tempDir
        (NewModuleHook name modulePath moduleConfig module) =
      .ok (sys.Join tempDir (sys.BaseName name ++ ".global-hook-config-values.json-patch")) ∧
    (module.SafeName sys).data <+:
      (ModuleHook.bindingContextFileName sys
        (NewModuleHook name modulePath moduleConfig module)).data := by
  refine ⟨rfl, rfl, ?_, ?_⟩
  · simp only [ModuleHook.prepareConfigValuesJsonPatchFile, createHookResultValuesFile,
      CommonHook.SafeName, NewModuleHook, NewHook]
    cases sys.OpenFile
      (sys.Join tempDir (sys.BaseName name ++ ".global-hook-config-values.json-patch")) <;> rfl
  · simp only [ModuleHook.bindingContextFileName, NewModuleHook, String.data_append,
      List.append_assoc]
    exact List.prefix_append _ _

/-- C14: when `initModuleHooks` fails, `modulesHooksOrderByName` has no entry for
the module afterwards, so the test for the early return of the next call is
false.  The manager is in fact what it was before the failed call, in which
the module had no entry either: the entries that hooks registered before the
failure added are gone. -/
theorem initModuleHooks_failure_cleans (sys : System) (mm : MainModuleManager)
    (module : Module) (e : HookError)
    (hfail : (initModuleHooks sys mm module).2 = .error e) :
    (initModuleHooks sys mm module).1.modulesHooksOrderByName module.Name = none ∧
    alreadyInitialized (initModuleHooks sys mm module).1 module = false ∧
    mm.modulesHooksOrderByName module.Name = none ∧
    (initModuleHooks sys mm module).1 = mm := by
  unfold initModuleHooks at hfail ⊢
  by_cases hinit : alreadyInitialized mm module = true
  · rw [if_pos hinit] at hfail
    cases hfail
  · rw [if_neg hinit] at hfail ⊢
    have habsent : mm.modulesHooksOrderByName module.Name = none := by
      unfold alreadyInitialized at hinit
      cases hentry : mm.modulesHooksOrderByName module.Name with
      | none => rfl
      | some m => rw [hentry] at hinit; exact absurd rfl hinit
    have hclean := removeModuleHooks_initHooks sys module (sys.Join module.Path "hooks") mm
    rw [removeModuleHooks_of_absent mm module.Name habsent] at hclean
    simp only at hfail ⊢
    split at hfail
    · rename_i mm' err heq
      rw [heq] at hclean
      simp only at hclean ⊢
      rw [hclean]
      exact ⟨habsent, by simp [alreadyInitialized, habsent], habsent, rfl⟩
    · cases hfail

/-- C14 (witness): hook `a` of module "mod" registers a `BeforeHelm` binding,
hook `b` fails to register; the discovery had given the module an entry, and
after the failed `initModuleHooks` the module has none. -/
theorem initModuleHooks_failure_cleans_witness :
    (initModuleHooks sampleSystem emptyManager sampleModule).2 =
      .error (.addModuleHookFailed "mod" "/modules/mod/hooks/b"
        (.unsupportedValue (.bool true) .AfterHelm)) ∧
    ((initHooks sampleSystem "/modules/mod/hooks" (addModuleHook sampleSystem sampleModule)
      emptyManager).1.modulesHooksOrderByName "mod").isSome = true ∧
    (initModuleHooks sampleSystem emptyManager sampleModule).1.modulesHooksOrderByName
      sampleModule.Name = none ∧
    alreadyInitialized (initModuleHooks sampleSystem emptyManager sampleModule).1
      sampleModule = false :=
  have hfail : (initModuleHooks sampleSystem emptyManager sampleModule).2 =
      .error (.addModuleHookFailed "mod" "/modules/mod/hooks/b"
        (.unsupportedValue (.bool true) .AfterHelm)) := rfl
  have hclean := initModuleHooks_failure_cleans sampleSystem emptyManager sampleModule _ hfail
  ⟨hfail, rfl, hclean.1, hclean.2.1⟩

/-- C15: `prepareHookConfig` sets, in each `onKubernetesEvent` entry, an absent
`eventTypes` to `[OnAdd, OnUpdate, OnDelete]` and an absent `namespaceSelector`
to the selector `{Any: true}`; it leaves `eventTypes` and `namespaceSelector`
that are present, the other fields of the entry, the number and order of the
entries, and the rest of the config unchanged.  Applying it twice equals
applying it once. -/
theorem prepareHookConfig_defaults (hookConfig : HookConfig) :
    (prepareHookConfig hookConfig).OnStartup = hookConfig.OnStartup ∧
    (prepareHookConfig hookConfig).Schedule = hookConfig.Schedule ∧
    ((prepareHookConfig hookConfig).OnKubernetesEvent = none ↔
      hookConfig.OnKubernetesEvent = none) ∧
    (∀ entries, hookConfig.OnKubernetesEvent = some entries →
      ∃ prepared, (prepareHookConfig hookConfig).OnKubernetesEvent = some prepared ∧
        prepared.length = entries.length ∧
        ∀ i entry, entries.get? i = some entry →
          ∃ entry', prepared.get? i = some entry' ∧
            entry'.Rest = entry.Rest ∧
            (entry.EventTypes = none →
              entry'.EventTypes =
                some [.KubernetesEventOnAdd, .KubernetesEventOnUpdate,
                  .KubernetesEventOnDelete]) ∧
            (∀ types, entry.EventTypes = some types → entry'.EventTypes = some types) ∧
            (entry.NamespaceSelector = none →
              entry'.NamespaceSelector = some ⟨none, true⟩) ∧
            (∀ selector, entry.NamespaceSelector = some selector →
              entry'.NamespaceSelector = some selector)) ∧
    prepareHookConfig (prepareHookConfig hookConfig) = prepareHookConfig hookConfig := by
  obtain ⟨startup, schedule, events⟩ := hookConfig
  refine ⟨rfl, rfl, ?_, ?_, ?_⟩
  · cases events <;> simp [prepareHookConfig]
  · intro entries hentries
    simp only at hentries
    subst hentries
    refine ⟨entries.map prepareOnKubernetesEventConfig, rfl, by simp, ?_⟩
    intro i entry hentry
    refine ⟨prepareOnKubernetesEventConfig entry, ?_,
      prepareOnKubernetesEventConfig_spec entry⟩
    simp [List.get?_eq_getElem?] at hentry ⊢
    exact ⟨entry, hentry, rfl⟩
  · cases events with
    | none => rfl
    | some entries =>
      simp only [prepareHookConfig, List.map_map, HookConfig.mk.injEq, true_and,
        Option.some.injEq]
      apply List.map_congr_left
      intro entry _
      exact prepareOnKubernetesEventConfig_idem entry

/-- C16 (code): two invocations from the empty manager, both returning nil.  The
first stores the memory patch `remove /global/x`, valid over the config values
`{global: {x: 1}}` of its own config patch.  The second persists the config
patch `remove /global/x`.  The stored patch no longer applies over the new
config values: `values()` panics, and so does the next run that carries a
memory patch. -/
theorem stored_patch_stops_applying :
    emptyManager.globalDynamicValuesPatches = [] ∧
    allReturnNil (specCollaborators true) emptyManager staleLogInvocations ∧
    (runAll (specCollaborators true) emptyManager
        staleLogInvocations).globalDynamicValuesPatches = [removeXPatch] ∧
    (runAll (specCollaborators true) emptyManager
        staleLogInvocations).kubeGlobalConfigValues = [("global", .obj [])] ∧
    GlobalHook.values (specCollaborators true)
        (runAll (specCollaborators true) emptyManager staleLogInvocations) =
      .error (.external "remove: invalid path") ∧
    (sampleHook.run (specCollaborators true)
        (runAll (specCollaborators true) emptyManager staleLogInvocations)
        (.ok ⟨none, some addXPatch⟩)).outcome =
      .panic (.external "remove: invalid path") := by
  refine ⟨rfl, ⟨rfl, rfl, trivial⟩, rfl, rfl, rfl, rfl⟩

end AddonOperator
